import Mathlib

/-!
Verification development for the `crusty` ray tracer.

Modelling conventions, used consistently below:

* `f64` values are modelled as real numbers (`ℝ`), i.e. the exact-arithmetic
  idealisation of IEEE double computations.  `f64::NAN` sentinels are modelled
  by `Option`: a computation that the source marks as NaN (and later filters
  with `is_nan`) becomes `none`.  `f64::EPSILON` is the exact constant `2⁻⁵²`.
* Machine integers (`u32`, `i32`, `u8`) are modelled as `ℕ` / `ℤ`.  The two
  places where wrapping could occur (`u32` shifts in the pixel packing) carry
  an explicit `% 2 ^ 32`.  Rust `i32` division truncates towards zero, which is
  `Int.tdiv`.  Saturating `f64 → uN` casts clamp the truncated value.
* Rust `Option` maps to `Option`, `Vec`/iterator pipelines to `List`
  combinators in the same order as the source iterates.
* The repository snapshot under inspection does not ship `src/raytracer/utils.rs`;
  the helpers it exports (`vec3add`, `vec3scale`, `vec3norm`, `matmul444`,
  `matmul414`) are modelled from the spec (standard 3-vector arithmetic,
  normalisation to a unit vector, and 4×4 / 4×1 matrix products).
-/

namespace Crusty

/-- Exact value of `f64::EPSILON` ( = 2⁻⁵²). -/
noncomputable def f64EPSILON : ℝ := 1 / 2 ^ 52

/-- Constant `HALF_EPSILON` from `objects.rs`. -/
noncomputable def HALF_EPSILON : ℝ := 0.49999999

/-- Modelled from the spec: `vec3add` from the missing `utils.rs`,
componentwise sum of two 3-vectors. -/
noncomputable def vec3add (a b : ℝ × ℝ × ℝ) : ℝ × ℝ × ℝ :=
  (a.1 + b.1, a.2.1 + b.2.1, a.2.2 + b.2.2)

/-- Modelled from the spec: `vec3scale` from the missing `utils.rs`,
scales a 3-vector by a scalar. -/
noncomputable def vec3scale (v : ℝ × ℝ × ℝ) (s : ℝ) : ℝ × ℝ × ℝ :=
  (v.1 * s, v.2.1 * s, v.2.2 * s)

/-- Modelled from the spec: `vec3norm` from the missing `utils.rs`,
normalises a 3-vector to unit length (spec §4.3: normals are re-normalised
after transformation). -/
noncomputable def vec3norm (v : ℝ × ℝ × ℝ) : ℝ × ℝ × ℝ :=
  let n := Real.sqrt (v.1 * v.1 + v.2.1 * v.2.1 + v.2.2 * v.2.2)
  (v.1 / n, v.2.1 / n, v.2.2 / n)

/-- Model of `f64::atan2`: `atan2 y x` is the angle of the point `(x, y)`,
in `(-π, π]`. -/
noncomputable def atan2 (y x : ℝ) : ℝ := Complex.arg ⟨x, y⟩

/-- `Ray` from `mod.rs` (the `ray_type` tag carries no behaviour in the
sources — the only variant is `Camera` — and is omitted). -/
structure Ray where
  origin : ℝ × ℝ × ℝ
  direction : ℝ × ℝ × ℝ

/-- `Hit` from `objects.rs`. -/
structure Hit where
  distance : ℝ
  intersection : ℝ × ℝ × ℝ
  normal : ℝ × ℝ × ℝ
  uv : ℝ × ℝ

/-- `solve_linear` from `objects.rs`: solves `a·t² + b·t + c = 0`.
`Δ ≥ f64::EPSILON` gives the smaller of the two roots, `Δ ∈ [0, ε)` the double
root, `Δ < 0` the NaN sentinel (modelled as `none`). -/
noncomputable def solve_linear (a b c : ℝ) : Option ℝ :=
  let delta := b * b - 4 * a * c
  if f64EPSILON ≤ delta then
    some (min ((-b + Real.sqrt delta) / (2 * a)) ((-b - Real.sqrt delta) / (2 * a)))
  else if 0 ≤ delta then
    some (-b / (2 * a))
  else
    none

/-- Helper `intersection` from `objects.rs`: the point at `distance` along a ray. -/
noncomputable def intersectionAt (ray : Ray) (distance : ℝ) : ℝ × ℝ × ℝ :=
  vec3add (vec3scale ray.direction distance) ray.origin

/-- `Plane::intersect` from `objects.rs` (unit square at z = 0). -/
noncomputable def Plane_intersect (ray : Ray) : Option Hit :=
  if |ray.direction.2.2| < f64EPSILON then
    none
  else
    let distance := -ray.origin.2.2 / ray.direction.2.2
    if 0.5 < |ray.origin.1 + ray.direction.1 * distance| ∨
       0.5 < |ray.origin.2.1 + ray.direction.2.1 * distance| then
      none
    else
      let intersection := intersectionAt ray distance
      let normal : ℝ × ℝ × ℝ := (0, 0, if intersection.2.2 < 0 then 1 else -1)
      let uv := (intersection.1 + 0.5, intersection.2.1 + 0.5)
      some ⟨distance, intersection, normal, uv⟩

/-- `Sphere::intersect` from `objects.rs` (quadratic solve; note the constant
term `‖origin‖² - 0.25`, i.e. the canonical sphere has radius 1/2). -/
noncomputable def Sphere_intersect (ray : Ray) : Option Hit :=
  match solve_linear
      (ray.direction.1 * ray.direction.1 +
        ray.direction.2.1 * ray.direction.2.1 +
        ray.direction.2.2 * ray.direction.2.2)
      (2 * (ray.direction.1 * ray.origin.1 +
        ray.direction.2.1 * ray.origin.2.1 +
        ray.direction.2.2 * ray.origin.2.2))
      (ray.origin.1 * ray.origin.1 +
        ray.origin.2.1 * ray.origin.2.1 +
        ray.origin.2.2 * ray.origin.2.2 -
        0.25) with
  | none => none
  | some distance =>
    if distance ≤ 0 then
      none
    else
      let intersection := intersectionAt ray distance
      let normal := vec3norm intersection
      let uv := (0.5 - atan2 normal.1 normal.2.1 / (2 * Real.pi),
        normal.2.2 * 0.5 + 0.5)
      some ⟨distance, intersection, normal, uv⟩

/-- `Cube::intersect` from `objects.rs` (slab method on `[-0.5, 0.5]³`).
The final `unreachable!()` arm of the normal/uv `match` is modelled as `none`
(a panic is a failure, not a hit). -/
noncomputable def Cube_intersect (ray : Ray) : Option Hit :=
  let inv_dir : ℝ × ℝ × ℝ :=
    (1 / ray.direction.1, 1 / ray.direction.2.1, 1 / ray.direction.2.2)
  let t1 : ℝ × ℝ × ℝ :=
    ((-0.5 - ray.origin.1) * inv_dir.1, (-0.5 - ray.origin.2.1) * inv_dir.2.1,
      (-0.5 - ray.origin.2.2) * inv_dir.2.2)
  let t2 : ℝ × ℝ × ℝ :=
    ((0.5 - ray.origin.1) * inv_dir.1, (0.5 - ray.origin.2.1) * inv_dir.2.1,
      (0.5 - ray.origin.2.2) * inv_dir.2.2)
  let tmin := max (max (min t1.1 t2.1) (min t1.2.1 t2.2.1)) (min t1.2.2 t2.2.2)
  let tmax := min (min (max t1.1 t2.1) (max t1.2.1 t2.2.1)) (max t1.2.2 t2.2.2)
  if tmax < 1 ∨ tmin > tmax then
    none
  else
    let distance := tmin
    let intersection := intersectionAt ray distance
    if intersection.1 ≤ -HALF_EPSILON then
      some ⟨distance, intersection, (-1, 0, 0),
        (0.5 - intersection.2.1, intersection.2.2 + 0.5)⟩
    else if HALF_EPSILON ≤ intersection.1 then
      some ⟨distance, intersection, (1, 0, 0),
        (intersection.2.1 + 0.5, intersection.2.2 + 0.5)⟩
    else if intersection.2.1 ≤ -HALF_EPSILON then
      some ⟨distance, intersection, (0, -1, 0),
        (intersection.1 + 0.5, intersection.2.2 + 0.5)⟩
    else if HALF_EPSILON ≤ intersection.2.1 then
      some ⟨distance, intersection, (0, 1, 0),
        (0.5 - intersection.1, intersection.2.2 + 0.5)⟩
    else if intersection.2.2 ≤ -HALF_EPSILON then
      some ⟨distance, intersection, (0, 0, -1),
        (intersection.1 + 0.5, 0.5 - intersection.2.1)⟩
    else if HALF_EPSILON ≤ intersection.2.2 then
      some ⟨distance, intersection, (0, 0, 1),
        (intersection.1 + 0.5, intersection.2.1 + 0.5)⟩
    else
      none

/-- `Cylinder::intersect` from `objects.rs`: lateral quadratic plus the two
z = ±0.5 caps, NaN-marked candidates filtered, minimum non-negative taken. -/
noncomputable def Cylinder_intersect (ray : Ray) : Option Hit :=
  let d0 : Option ℝ :=
    (solve_linear
      (ray.direction.1 * ray.direction.1 + ray.direction.2.1 * ray.direction.2.1)
      (2 * (ray.direction.1 * ray.origin.1 + ray.direction.2.1 * ray.origin.2.1))
      (ray.origin.1 * ray.origin.1 + ray.origin.2.1 * ray.origin.2.1 - 0.25)).bind
      fun d =>
        if 0.5 < |ray.direction.2.2 * d + ray.origin.2.2| then none else some d
  let cap : ℝ → Option ℝ := fun t =>
    if |ray.direction.2.2| < f64EPSILON ∨
        0.25 < (t * ray.direction.1 + ray.origin.1) ^ 2 +
          (t * ray.direction.2.1 + ray.origin.2.1) ^ 2 then
      none
    else
      some t
  let d1 := cap (-(ray.origin.2.2 - 0.5) / ray.direction.2.2)
  let d2 := cap (-(ray.origin.2.2 + 0.5) / ray.direction.2.2)
  let candidates := ([d0, d1, d2].filterMap id).filter (fun d => 0 ≤ d)
  match candidates.min? with
  | none => none
  | some distance =>
    let intersection := intersectionAt ray distance
    let normal : ℝ × ℝ × ℝ :=
      if intersection.2.2 ≤ -HALF_EPSILON then (0, 0, -1)
      else if HALF_EPSILON ≤ intersection.2.2 then (0, 0, 1)
      else vec3norm (intersection.1, intersection.2.1, 0)
    let uv := (0.5 - atan2 intersection.1 intersection.2.1 / (2 * Real.pi),
      intersection.2.2 + 0.5)
    some ⟨distance, intersection, normal, uv⟩

/-- `Cone::intersect` from `objects.rs`: tapering lateral quadratic plus the
z = -0.5 cap, NaN-marked candidates filtered, minimum non-negative taken. -/
noncomputable def Cone_intersect (ray : Ray) : Option Hit :=
  let d0 : Option ℝ :=
    (solve_linear
      (ray.direction.1 * ray.direction.1 + ray.direction.2.1 * ray.direction.2.1 -
        ray.direction.2.2 * ray.direction.2.2 / 4)
      (2 * (ray.direction.1 * ray.origin.1 + ray.direction.2.1 * ray.origin.2.1 +
        ray.direction.2.2 * (0.5 - ray.origin.2.2) / 4))
      (ray.origin.1 * ray.origin.1 + ray.origin.2.1 * ray.origin.2.1 -
        (0.5 - ray.origin.2.2) * (0.5 - ray.origin.2.2) / 4)).bind
      fun d =>
        if 0.5 < |ray.direction.2.2 * d + ray.origin.2.2| then none else some d
  let d1 : Option ℝ :=
    let t := -(0.5 + ray.origin.2.2) / ray.direction.2.2
    if |ray.direction.2.2| < f64EPSILON ∨
        0.25 < (t * ray.direction.1 + ray.origin.1) ^ 2 +
          (t * ray.direction.2.1 + ray.origin.2.1) ^ 2 then
      none
    else
      some t
  let candidates := ([d0, d1].filterMap id).filter (fun d => 0 ≤ d)
  match candidates.min? with
  | none => none
  | some distance =>
    let intersection := intersectionAt ray distance
    let normal : ℝ × ℝ × ℝ :=
      if HALF_EPSILON ≤ intersection.2.2 then (0, 0, 1)
      else vec3norm (intersection.1, intersection.2.1, intersection.2.2)
    let uv := (0.5 - atan2 intersection.1 intersection.2.1 / (2 * Real.pi),
      intersection.2.2 + 0.5)
    some ⟨distance, intersection, normal, uv⟩

/-! ### Transforms (`transform.rs`) -/

/-- Matrices are 4×4 over ℝ, as in `transform.rs`. -/
abbrev Mat4 := Matrix (Fin 4) (Fin 4) ℝ

/-- Modelled from the spec: `matmul444` from the missing `utils.rs`, the
standard 4×4 matrix product. -/
noncomputable def matmul444 (a b : Mat4) : Mat4 := a * b

/-- Modelled from the spec: `matmul414` from the missing `utils.rs`, the
standard 4×4 by 4×1 matrix-vector product. -/
noncomputable def matmul414 (a : Mat4) (v : Fin 4 → ℝ) : Fin 4 → ℝ := a.mulVec v

/-- `Transform` from `transform.rs`: a matrix and its cached inverse. -/
structure Transform where
  matrix : Mat4
  invmatrix : Mat4

/-- `Transform::identity` (also `Transform::new`). -/
noncomputable def Transform.identity : Transform := ⟨1, 1⟩

/-- `Transform::inverse`: swap the cached matrices. -/
noncomputable def Transform.inverse (t : Transform) : Transform :=
  ⟨t.invmatrix, t.matrix⟩

/-- The local `translate` matrix from `Transform::translate`. -/
noncomputable def translateMat (x y z : ℝ) : Mat4 :=
  !![1, 0, 0, x; 0, 1, 0, y; 0, 0, 1, z; 0, 0, 0, 1]

/-- The local `invtranslate` matrix from `Transform::translate`. -/
noncomputable def invtranslateMat (x y z : ℝ) : Mat4 :=
  !![1, 0, 0, -x; 0, 1, 0, -y; 0, 0, 1, -z; 0, 0, 0, 1]

/-- `Transform::translate`. -/
noncomputable def Transform.translate (t : Transform) (x y z : ℝ) : Transform :=
  ⟨matmul444 t.matrix (translateMat x y z),
    matmul444 (invtranslateMat x y z) t.invmatrix⟩

/-- The local `rotate` matrix from `Transform::rotate` (closed form of the
intrinsic X→Y→Z composition), as a function of the six sines/cosines. -/
noncomputable def rotateMat (sx cx sy cy sz cz : ℝ) : Mat4 :=
  !![cy*cz,            -cy*sz,            sy,     0;
     sx*sy*cz+cx*sz,   -sx*sy*sz+cx*cz,   -sx*cy, 0;
     -cx*sy*cz+sx*sz,  cx*sy*sz+sx*cz,    cx*cy,  0;
     0,                0,                 0,      1]

/-- The local `invrotate` matrix from `Transform::rotate`. -/
noncomputable def invrotateMat (sx cx sy cy sz cz : ℝ) : Mat4 :=
  !![cy*cz,   sx*sy*cz+cx*sz,    -cx*sy*cz+sx*sz,  0;
     -cy*sz,  -sx*sy*sz+cx*cz,   cx*sy*sz+sx*cz,   0;
     sy,      -sx*cy,            cx*cy,            0;
     0,       0,                 0,                1]

/-- `Transform::rotate` (arguments in degrees, converted to radians). -/
noncomputable def Transform.rotate (t : Transform) (x y z : ℝ) : Transform :=
  let sx := Real.sin (x * Real.pi / 180)
  let cx := Real.cos (x * Real.pi / 180)
  let sy := Real.sin (y * Real.pi / 180)
  let cy := Real.cos (y * Real.pi / 180)
  let sz := Real.sin (z * Real.pi / 180)
  let cz := Real.cos (z * Real.pi / 180)
  ⟨matmul444 t.matrix (rotateMat sx cx sy cy sz cz),
    matmul444 (invrotateMat sx cx sy cy sz cz) t.invmatrix⟩

/-- The local `scale` matrix from `Transform::scale`. -/
noncomputable def scaleMat (x y z : ℝ) : Mat4 :=
  !![x, 0, 0, 0; 0, y, 0, 0; 0, 0, z, 0; 0, 0, 0, 1]

/-- The local `invscale` matrix from `Transform::scale`. -/
noncomputable def invscaleMat (x y z : ℝ) : Mat4 :=
  !![1/x, 0, 0, 0; 0, 1/y, 0, 0; 0, 0, 1/z, 0; 0, 0, 0, 1]

/-- `Transform::scale`. -/
noncomputable def Transform.scale (t : Transform) (x y z : ℝ) : Transform :=
  ⟨matmul444 t.matrix (scaleMat x y z),
    matmul444 (invscaleMat x y z) t.invmatrix⟩

/-- `Transform::apply`: transform a point (homogeneous w = 1). -/
noncomputable def Transform.apply (t : Transform) (p : ℝ × ℝ × ℝ) : ℝ × ℝ × ℝ :=
  let r := matmul414 t.matrix ![p.1, p.2.1, p.2.2, 1]
  (r 0, r 1, r 2)

/-- `Transform::apply_notranslate`: transform a direction (w = 0). -/
noncomputable def Transform.apply_notranslate (t : Transform) (p : ℝ × ℝ × ℝ) :
    ℝ × ℝ × ℝ :=
  let r := matmul414 t.matrix ![p.1, p.2.1, p.2.2, 0]
  (r 0, r 1, r 2)

/-! ### Scene objects (`objects.rs`) and the render core (`mod.rs`) -/

/-- The sealed set of primitive types registered in `OBJECT_TYPES`. -/
inductive ObjectType where
  | plane
  | sphere
  | cube
  | cylinder
  | cone

/-- Dispatch of `ObjectType::intersect` to the per-primitive solvers. -/
noncomputable def ObjectType.intersect : ObjectType → Ray → Option Hit
  | .plane => Plane_intersect
  | .sphere => Sphere_intersect
  | .cube => Cube_intersect
  | .cylinder => Cylinder_intersect
  | .cone => Cone_intersect

/-- `Object` from `objects.rs`: a transform, a primitive, and the material id
the renderer reads through `hit.object.material` (`scene.rs` passes it to
`Object::new`). -/
structure Object where
  transform : Transform
  inner : ObjectType
  material : String

/-- `Object::intersect`: transform the ray to object space, delegate, then
map the hit point back with `apply` and the normal with `apply_notranslate`
plus re-normalisation. -/
noncomputable def Object.intersect (o : Object) (ray : Ray) : Option Hit :=
  let tmp : Ray := ⟨o.transform.inverse.apply ray.origin,
    o.transform.inverse.apply_notranslate ray.direction⟩
  match o.inner.intersect tmp with
  | some hit => some { hit with
      intersection := o.transform.apply hit.intersection,
      normal := vec3norm (o.transform.apply_notranslate hit.normal) }
  | none => none

/-- `ObjectHit` from `objects.rs`.  `objIdx` is the position of the object in
the scene vector and models the reference identity that `ptr::eq` compares in
`Raytracer::raytrace`. -/
structure ObjectHit where
  ray : Ray
  objIdx : ℕ
  object : Object
  hit : Hit

/-- `RGBA` from `mod.rs`. -/
structure RGBA where
  r : ℝ
  g : ℝ
  b : ℝ
  a : ℝ

/-- `RGBA::transparent`. -/
noncomputable def RGBA.transparent : RGBA := ⟨0, 0, 0, 0⟩

/-- `RGBA::black`. -/
noncomputable def RGBA.black : RGBA := ⟨0, 0, 0, 1⟩

/-- `RGBA::white`. -/
noncomputable def RGBA.white : RGBA := ⟨1, 1, 1, 1⟩

/-- Saturating `f64 as u8` cast (truncation clamped to `[0, 255]`). -/
noncomputable def f64_as_u8 (x : ℝ) : ℕ := (min 255 (max 0 ⌊x⌋)).toNat

/-- Saturating `f64 as u32` cast (truncation clamped to `[0, 2³² - 1]`). -/
noncomputable def f64_as_u32 (x : ℝ) : ℕ := (min (2 ^ 32 - 1) (max 0 ⌊x⌋)).toNat

/-- `Material` from `materials.rs`: the boxed shading behaviour, a function
of the hit and the recursive trace callback. -/
structure Material where
  shade : ObjectHit → (Ray → RGBA) → RGBA

/-- `Fallback::shade` from `materials.rs`: the checkerboard over UV space;
the trace callback is ignored (no recursion). -/
noncomputable def Fallback_shade (oh : ObjectHit) (_ : Ray → RGBA) : RGBA :=
  if (f64_as_u8 (oh.hit.uv.1 * 20) % 2) ^^^ (f64_as_u8 (oh.hit.uv.2 * 20) % 2) = 0 then
    ⟨oh.hit.uv.1, 0, oh.hit.uv.2, 1⟩
  else
    RGBA.black

/-- The `FALLBACK` material. -/
noncomputable def FALLBACK : Material := ⟨Fallback_shade⟩

/-- The `min_by(total_cmp on distance)` step of `Raytracer::raytrace`: on
ties the first (earlier in iteration order) element wins. -/
noncomputable def minByDist (l : List ObjectHit) : Option ObjectHit :=
  l.foldl
    (fun acc h =>
      match acc with
      | none => some h
      | some a => if h.hit.distance < a.hit.distance then some h else some a)
    none

/-- The per-object hits of `Raytracer::raytrace` (lines 196–198 of `mod.rs`):
drop the ignored object, intersect the rest in array order. -/
noncomputable def sceneHits (objects : List Object) (ray : Ray)
    (ignore : Option ℕ) : List ObjectHit :=
  (objects.enum.filter (fun io => !(ignore = some io.1 : Bool))).filterMap
    (fun io => (io.2.intersect ray).map (fun h => ObjectHit.mk ray io.1 io.2 h))

/-- The hit-selection pipeline of `Raytracer::raytrace` (lines 196–199 of
`mod.rs`): the nearest of the per-object hits by `total_cmp`. -/
noncomputable def selectHit (objects : List Object) (ray : Ray)
    (ignore : Option ℕ) : Option ObjectHit :=
  minByDist (sceneHits objects ray ignore)

/-- `Raytracer::raytrace`: select the nearest hit, resolve the material with
the `FALLBACK` default, shade with the recursive callback that excludes the
hit object.  The `fuel` argument bounds the callback depth (the source
recursion is unbounded; no material in the sources ever recurses). -/
noncomputable def Raytracer_raytrace (objects : List Object)
    (materials : List (String × Material)) :
    ℕ → Ray → Option ℕ → RGBA
  | 0, _, _ => RGBA.transparent
  | fuel + 1, ray, ignore =>
    match selectHit objects ray ignore with
    | some oh =>
      ((materials.lookup oh.object.material).getD FALLBACK).shade oh
        (fun r => Raytracer_raytrace objects materials fuel r (some oh.objIdx))
    | none => RGBA.transparent

/-- The closure folded over the samples in `RGBA::average`: accumulate
`channel² × alpha` per colour channel and the alpha itself. -/
noncomputable def sampleAccum (acc : ℝ × ℝ × ℝ × ℝ) (s : RGBA) : ℝ × ℝ × ℝ × ℝ :=
  (acc.1 + s.r * s.r * s.a, acc.2.1 + s.g * s.g * s.a,
    acc.2.2.1 + s.b * s.b * s.a, acc.2.2.2 + s.a)

/-- `RGBA::average` from `mod.rs`. -/
noncomputable def RGBA.average (samples : List RGBA) : RGBA :=
  let ssum := samples.foldl sampleAccum (0, 0, 0, 0)
  ⟨Real.sqrt (ssum.1 / ssum.2.2.2), Real.sqrt (ssum.2.1 / ssum.2.2.2),
    Real.sqrt (ssum.2.2.1 / ssum.2.2.2), ssum.2.2.2 / samples.length⟩

/-- `Into<u32> for RGBA` from `mod.rs`: per-channel `* 255.0`, saturating
cast, shift and or.  The `% 2 ^ 32` makes the `u32` shift wrapping explicit. -/
noncomputable def RGBA.into_u32 (c : RGBA) : ℕ :=
  ((f64_as_u32 (c.r * 255) <<< 24) % 2 ^ 32) |||
    ((f64_as_u32 (c.g * 255) <<< 16) % 2 ^ 32) |||
    ((f64_as_u32 (c.b * 255) <<< 8) % 2 ^ 32) |||
    f64_as_u32 (c.a * 255)

/-! ### Finite sequences of transform operations (for the round-trip claim) -/

/-- A builder step on a `Transform`, as in the spec §4.1 contract. -/
inductive TransformOp where
  | translate (x y z : ℝ)
  | rotate (x y z : ℝ)
  | scale (x y z : ℝ)

/-- Apply one builder step. -/
noncomputable def applyOp (t : Transform) : TransformOp → Transform
  | .translate x y z => t.translate x y z
  | .rotate x y z => t.rotate x y z
  | .scale x y z => t.scale x y z

/-- A `Transform` composed from the identity by a finite sequence of steps. -/
noncomputable def composeOps (ops : List TransformOp) : Transform :=
  ops.foldl applyOp Transform.identity

/-- The claim's side condition: scale steps have nonzero factors. -/
def scaleFactorsNonzero : TransformOp → Prop
  | .scale x y z => x ≠ 0 ∧ y ≠ 0 ∧ z ≠ 0
  | _ => True

/-- Invariant maintained by the builder steps: the cached `invmatrix` is a
left inverse of `matrix` and both have affine last row `[0,0,0,1]`. -/
def Transform.wellFormed (t : Transform) : Prop :=
  t.invmatrix * t.matrix = 1 ∧ t.matrix 3 = ![0, 0, 0, 1] ∧
    t.invmatrix 3 = ![0, 0, 0, 1]

/-- Elementary X rotation (homogeneous), used to factor `rotateMat`. -/
noncomputable def rotXM (s c : ℝ) : Mat4 :=
  !![1, 0, 0, 0; 0, c, -s, 0; 0, s, c, 0; 0, 0, 0, 1]

/-- Elementary Y rotation (homogeneous), used to factor `rotateMat`. -/
noncomputable def rotYM (s c : ℝ) : Mat4 :=
  !![c, 0, s, 0; 0, 1, 0, 0; -s, 0, c, 0; 0, 0, 0, 1]

/-- Elementary Z rotation (homogeneous), used to factor `rotateMat`. -/
noncomputable def rotZM (s c : ℝ) : Mat4 :=
  !![c, -s, 0, 0; s, c, 0, 0; 0, 0, 1, 0; 0, 0, 0, 1]

/-! ### Tile scheduler (`tile.rs`)

Pure `u32`/`i32` code, modelled over `ℕ`/`ℤ` (the idealised unbounded-integer
semantics; Rust `i32` division truncates towards zero, which is `Int.tdiv`).
The `with_capacity` size hint of the source has no observable behaviour and is
not modelled. -/

/-- `Tile` from `tile.rs` (`right`/`bottom` exclusive). -/
structure Tile where
  left : ℕ
  right : ℕ
  top : ℕ
  bottom : ℕ
  deriving DecidableEq

/-- `divide_up` from `tile.rs`: ceiling division. -/
def divide_up (a b : ℕ) : ℕ := (a + b - 1) / b

/-- One iteration of the `while s < n` loop body of
`hilbert_index_to_position`. -/
def hilbertStep (d s : ℕ) (xy : ℕ × ℕ) : ℕ × ℕ :=
  let r0 := (d >>> 1) &&& 1
  let r1 := (d ^^^ r0) &&& 1
  let xy :=
    if r1 = 0 then
      let xy := if r0 ≠ 0 then (s - 1 - xy.1, s - 1 - xy.2) else xy
      (xy.2, xy.1)
    else
      xy
  (xy.1 + r0 * s, xy.2 + r1 * s)

/-- The `while s < n` loop of `hilbert_index_to_position`; `fuel` makes the
recursion structural and never runs out for `fuel ≥ n` since `s` doubles
from 1. -/
def hilbertLoop : ℕ → ℕ → ℕ → ℕ → ℕ × ℕ → ℕ × ℕ
  | 0, _, _, _, xy => xy
  | fuel + 1, n, s, d, xy =>
    if s < n then hilbertLoop fuel n (s * 2) (d >>> 2) (hilbertStep d s xy)
    else xy

/-- `hilbert_index_to_position` from `tile.rs`. -/
def hilbert_index_to_position (n d : ℕ) : ℕ × ℕ :=
  hilbertLoop n n 1 d (0, 0)

/-- The per-direction reordering of the sub-block position (the `tile`
binding inside the block loop of `hilbert_tiles`). -/
def spiralRotate (hilbert_sz dir prev_dir : ℕ) (hp : ℕ × ℕ) : ℕ × ℕ :=
  if dir = 0 ∧ prev_dir = 0 then (hp.2, hp.1)
  else if dir = 1 ∨ prev_dir = 1 then (hp.1, hp.2)
  else if dir = 2 then (hilbert_sz - 1 - hp.2, hilbert_sz - 1 - hp.1)
  else (hilbert_sz - 1 - hp.1, hilbert_sz - 1 - hp.2)

/-- The body of the `for hilbert_index in 0..hilbert_sz*hilbert_sz` loop:
the tiles contributed by one block of the spiral, in hilbert-index order. -/
def tilesOfBlock (width height tile_sz hilbert_sz block_sz : ℕ)
    (offset : ℤ × ℤ) (block : ℕ × ℕ) (dir prev_dir : ℕ) : List Tile :=
  (List.range (hilbert_sz * hilbert_sz)).filterMap fun hilbert_index =>
    let hilbert_pos := hilbert_index_to_position hilbert_sz hilbert_index
    let tile := spiralRotate hilbert_sz dir prev_dir hilbert_pos
    let tile_pos : ℤ × ℤ :=
      (((block.1 * block_sz + tile.1 * tile_sz : ℕ) : ℤ) + offset.1,
        ((block.2 * block_sz + tile.2 * tile_sz : ℕ) : ℤ) + offset.2)
    if 0 ≤ tile_pos.1 ∧ tile_pos.1 < (width : ℤ) ∧ 0 ≤ tile_pos.2 ∧
        tile_pos.2 < (height : ℤ) then
      some ⟨tile_pos.1.toNat,
        tile_pos.1.toNat + min tile_sz (width - tile_pos.1.toNat),
        tile_pos.2.toNat,
        tile_pos.2.toNat + min tile_sz (height - tile_pos.2.toNat)⟩
    else
      none

/-- The `Advance to next block` match of the spiral loop: returns the next
`(block, dir, i)`. -/
def spiralStep (n : ℕ) (block : ℕ × ℕ) (dir i : ℕ) : (ℕ × ℕ) × ℕ × ℕ :=
  match dir with
  | 0 =>
    let block := (block.1, block.2 + 1)
    if block.2 = n - i - 1 then (block, 1, i) else (block, 0, i)
  | 1 =>
    let block := (block.1 + 1, block.2)
    if block.1 = n - i - 1 then (block, 2, i) else (block, 1, i)
  | 2 =>
    let block := (block.1, block.2 - 1)
    if block.2 = i then (block, 3, i) else (block, 2, i)
  | _ =>
    let block := (block.1 - 1, block.2)
    if block.1 = i + 1 then (block, 0, i + 1) else (block, 3, i)

/-- The spiral loop unrolled to its per-iteration `(block, dir, prev_dir)`
states: a state is recorded at the top of each iteration (where the block's
tiles are emitted) and the loop breaks after recording the centre block.
`fuel` makes the recursion structural; `n * n` iterations always suffice
(the spiral visits each of the `n²` blocks once, proved below). -/
def spiralStates (n : ℕ) : ℕ → (ℕ × ℕ) → ℕ → ℕ → ℕ → List ((ℕ × ℕ) × ℕ × ℕ)
  | 0, _, _, _, _ => []
  | fuel + 1, block, dir, prev_dir, i =>
    (block, dir, prev_dir) ::
      (if block.1 = (n - 1) / 2 ∧ block.2 = (n - 1) / 2 then []
       else
         let s := spiralStep n block dir i
         spiralStates n fuel s.1 s.2.1 dir s.2.2)

/-- `hilbert_tiles` from `tile.rs`. -/
def hilbert_tiles (width height tile_sz : ℕ) : List Tile :=
  let hilbert_sz := if tile_sz ≤ 12 then 8 else 4
  let block_sz := tile_sz * hilbert_sz
  let block_cnt : ℕ × ℕ :=
    (if width ≤ block_sz then 1 else divide_up width block_sz,
      if height ≤ block_sz then 1 else divide_up height block_sz)
  let n := max block_cnt.1 block_cnt.2 ||| 1
  let offset : ℤ × ℤ :=
    (Int.tdiv (Int.tdiv ((width : ℤ) - ((n * block_sz : ℕ) : ℤ)) 2) tile_sz * tile_sz,
      Int.tdiv (Int.tdiv ((height : ℤ) - ((n * block_sz : ℕ) : ℤ)) 2) tile_sz * tile_sz)
  (spiralStates n (n * n) (0, 0) 0 0 0).flatMap fun st =>
    tilesOfBlock width height tile_sz hilbert_sz block_sz offset st.1 st.2.1 st.2.2

/-- The blocks-only projection of the spiral loop (its path does not depend
on `prev_dir`). -/
def spiralBlocks (n : ℕ) : ℕ → (ℕ × ℕ) → ℕ → ℕ → List (ℕ × ℕ)
  | 0, _, _, _ => []
  | fuel + 1, block, dir, i =>
    block ::
      (if block.1 = (n - 1) / 2 ∧ block.2 = (n - 1) / 2 then []
       else
         let s := spiralStep n block dir i
         spiralBlocks n fuel s.1 s.2.1 s.2.2)

/-- Membership count used throughout the tiling proof. -/
def cnt (p : ℕ × ℕ) (l : List (ℕ × ℕ)) : ℕ :=
  l.countP (fun q => q = p)

/-- Inverse of `spiralRotate` on the `[0, hilbert_sz)²` square (each branch
is an involution composed with a swap). -/
def spiralRotInv (hilbert_sz dir prev_dir : ℕ) (p : ℕ × ℕ) : ℕ × ℕ :=
  if dir = 0 ∧ prev_dir = 0 then (p.2, p.1)
  else if dir = 1 ∨ prev_dir = 1 then (p.1, p.2)
  else if dir = 2 then (hilbert_sz - 1 - p.2, hilbert_sz - 1 - p.1)
  else (hilbert_sz - 1 - p.1, hilbert_sz - 1 - p.2)

/-- Pixel membership in a tile. -/
def pixelIn (x y : ℕ) (t : Tile) : Prop :=
  t.left ≤ x ∧ x < t.right ∧ t.top ≤ y ∧ y < t.bottom

instance (x y : ℕ) (t : Tile) : Decidable (pixelIn x y t) := by
  unfold pixelIn
  infer_instance

/-! ### Progress counter model (`mod.rs`, C8)

`Raytracer::work` adds exactly one to the `progress` counter per pixel of a
popped tile; a run to completion therefore adds the total pixel count of all
queued tiles.  `Raytracer::start` refills the tile queue but never resets
`progress` (it is set to 0 only in `Raytracer::new`), so after `k` completed
`start` invocations the counter holds `k` times the per-render total. -/

/-- Pixel area of a tile (the number of `work` loop iterations it causes). -/
def tileArea (t : Tile) : ℕ := (t.right - t.left) * (t.bottom - t.top)

/-- Total pixels of one full render pass. -/
def totalPixels (width height tile_sz : ℕ) : ℕ :=
  ((hilbert_tiles width height tile_sz).map tileArea).sum

/-- Value of the `progress` counter after `k` completed render invocations
on the same `Raytracer` (never reset between invocations). -/
def progressCounterAfter (width height tile_sz k : ℕ) : ℕ :=
  k * totalPixels width height tile_sz

/-! ### Concrete scenes and rays used by witnesses and counterexamples -/

/-- Concrete operation list for the C5 witness. -/
noncomputable def c5ops : List TransformOp :=
  [TransformOp.translate 1 2 3, TransformOp.rotate 30 45 60,
    TransformOp.scale 2 (-1) 0.5]

/-- A ray from inside-behind the unit plane: origin (0,0,1), direction (0,0,1). -/
noncomputable def behindRay : Ray := ⟨(0, 0, 1), (0, 0, 1)⟩

/-- An identity-placed plane whose material id resolves to nothing. -/
noncomputable def planeObj0 : Object := ⟨Transform.identity, .plane, "missing"⟩

/-- A sphere translated to (0,0,3). -/
noncomputable def sphereObj3 : Object := ⟨Transform.identity.translate 0 0 3, .sphere, ""⟩

/-! ### Evaluation helpers for the spec test vectors -/

/-- Test ray of spec §8.3: origin (0,0,5), direction (0,0,-1). -/
noncomputable def specSphereRay : Ray := ⟨(0, 0, 5), (0, 0, -1)⟩

lemma solve_linear_spec_sphere : solve_linear 1 (-10) (99 / 4) = some (9 / 2) := by
  unfold solve_linear
  have hδ : (-10 : ℝ) * -10 - 4 * 1 * (99 / 4) = 1 := by norm_num
  rw [if_pos]
  · rw [hδ, Real.sqrt_one]
    norm_num [min_def]
  · rw [hδ]
    unfold f64EPSILON
    norm_num

lemma sqrt_quarter : Real.sqrt 0.25 = 0.5 := by
  rw [show (0.25 : ℝ) = 0.5 ^ 2 by norm_num, Real.sqrt_sq (by norm_num)]

lemma sqrt_four : Real.sqrt 4 = 2 := by
  rw [show (4 : ℝ) = 2 ^ 2 by norm_num, Real.sqrt_sq (by norm_num)]

lemma arg_zero_zero : atan2 0 0 = 0 := by
  have h : (⟨0, 0⟩ : ℂ) = 0 := by
    apply Complex.ext <;> simp
  rw [atan2, h, Complex.arg_zero]

lemma sphere_test_eval :
    Sphere_intersect specSphereRay =
      some ⟨4.5, (0, 0, 0.5), (0, 0, 1), (0.5, 1)⟩ := by
  unfold Sphere_intersect specSphereRay
  norm_num
  rw [solve_linear_spec_sphere]
  norm_num [intersectionAt, vec3add, vec3scale, vec3norm, sqrt_quarter, sqrt_four,
    arg_zero_zero]

lemma plane_eval_from_above :
    Plane_intersect specSphereRay = some ⟨5, (0, 0, 0), (0, 0, -1), (0.5, 0.5)⟩ := by
  unfold Plane_intersect specSphereRay
  norm_num [f64EPSILON, intersectionAt, vec3add, vec3scale]

lemma plane_eval_behind :
    Plane_intersect ⟨(0, 0, 1), (0, 0, 1)⟩ =
      some ⟨-1, (0, 0, 0), (0, 0, -1), (0.5, 0.5)⟩ := by
  unfold Plane_intersect
  norm_num [f64EPSILON, intersectionAt, vec3add, vec3scale]

lemma cube_eval_behind :
    Cube_intersect ⟨(-0.25, -0.25, -0.25), (0.25, 0.25, 0.25)⟩ =
      some ⟨-1, (-0.5, -0.5, -0.5), (-1, 0, 0), (1, 0)⟩ := by
  unfold Cube_intersect
  norm_num [HALF_EPSILON, intersectionAt, vec3add, vec3scale]

lemma Sphere_hit_nonneg (ray : Ray) (h : Hit)
    (he : Sphere_intersect ray = some h) : 0 ≤ h.distance := by
  unfold Sphere_intersect at he
  split at he
  · exact absurd he (by simp)
  · split at he
    · exact absurd he (by simp)
    · cases he
      rename_i hd
      dsimp
      linarith [not_le.mp hd]

lemma Cylinder_hit_nonneg (ray : Ray) (h : Hit)
    (he : Cylinder_intersect ray = some h) : 0 ≤ h.distance := by
  simp only [Cylinder_intersect] at he
  split at he
  · exact absurd he (by simp)
  · cases he
    rename_i d heq
    have hmem := List.min?_mem (fun a b => min_choice a b) heq
    rw [List.mem_filter] at hmem
    simpa using hmem.2

lemma Cone_hit_nonneg (ray : Ray) (h : Hit)
    (he : Cone_intersect ray = some h) : 0 ≤ h.distance := by
  simp only [Cone_intersect] at he
  split at he
  · exact absurd he (by simp)
  · cases he
    rename_i d heq
    have hmem := List.min?_mem (fun a b => min_choice a b) heq
    rw [List.mem_filter] at hmem
    simpa using hmem.2

/-- The `Plane` normal branch is degenerate: the intersection z-coordinate is
identically `oz + dz·(-oz/dz) = 0` in exact arithmetic, so `intersection.2 < 0`
never holds and the returned normal is always `(0, 0, -1)`. -/
lemma Plane_normal_always_minus_z (ray : Ray) (h : Hit)
    (he : Plane_intersect ray = some h) : h.normal = (0, 0, -1) := by
  unfold Plane_intersect at he
  split at he
  · exact absurd he (by simp)
  · rename_i hdz
    have hdz0 : ray.direction.2.2 ≠ 0 := by
      intro h0
      rw [h0] at hdz
      simp only [abs_zero, not_lt] at hdz
      have : (0 : ℝ) < f64EPSILON := by norm_num [f64EPSILON]
      linarith
    dsimp only at he
    split at he
    · exact absurd he (by simp)
    · cases he
      have hz : ray.direction.2.2 * (-ray.origin.2.2 / ray.direction.2.2) +
          ray.origin.2.2 = 0 := by
        field_simp
        ring
      dsimp [intersectionAt, vec3add, vec3scale]
      rw [hz]
      norm_num

/-- C2 (corrected): the canonical sphere has radius 1/2 (its implicit
equation uses the constant `0.25 = (1/2)²`), so the spec test ray from
(0,0,5) towards -z hits at distance 4.5 — not 4.0 — with normal (0,0,1). -/
theorem C2_sphere_test_vector_amended :
    (Sphere_intersect specSphereRay).map Hit.distance = some 4.5 ∧
    (Sphere_intersect specSphereRay).map Hit.normal = some (0, 0, 1) := by
  rw [sphere_test_eval]
  constructor <;> norm_num

/-- C2 counterexample: the claimed hit distance 4.0 is wrong — the code
returns 4.5 for the spec test ray from (0,0,5) in direction (0,0,-1). -/
theorem C2_counterexample :
    ¬ (Sphere_intersect specSphereRay).map Hit.distance = some 4 := by
  rw [sphere_test_eval]
  norm_num

/-- C3 (corrected): sphere, cylinder and cone intersections always return a
non-negative hit distance (negative candidates are filtered), but the plane
and the cube reject nothing behind the origin and can return hits with
negative distance. -/
theorem C3_nonneg_amended :
    (∀ ray h, Sphere_intersect ray = some h → 0 ≤ h.distance) ∧
    (∀ ray h, Cylinder_intersect ray = some h → 0 ≤ h.distance) ∧
    (∀ ray h, Cone_intersect ray = some h → 0 ≤ h.distance) ∧
    (∃ ray h, Plane_intersect ray = some h ∧ h.distance < 0) ∧
    (∃ ray h, Cube_intersect ray = some h ∧ h.distance < 0) := by
  refine ⟨Sphere_hit_nonneg, Cylinder_hit_nonneg, Cone_hit_nonneg, ?_, ?_⟩
  · exact ⟨_, _, plane_eval_behind, by norm_num⟩
  · exact ⟨_, _, cube_eval_behind, by norm_num⟩

/-- C3 witness: the non-negativity statement applied at the concrete sphere
test ray, which does return a hit (at distance 4.5 ≥ 0). -/
theorem C3_witness : (0 : ℝ) ≤
    (Hit.mk 4.5 (0, 0, 0.5) (0, 0, 1) (0.5, 1)).distance :=
  C3_nonneg_amended.1 specSphereRay ⟨4.5, (0, 0, 0.5), (0, 0, 1), (0.5, 1)⟩
    sphere_test_eval

/-- C3 counterexample: the plane primitive returns a hit with distance -1
for the ray with origin (0,0,1) and direction (0,0,1) — a candidate behind
the origin is not rejected. -/
theorem C3_counterexample :
    (Plane_intersect ⟨(0, 0, 1), (0, 0, 1)⟩).map Hit.distance = some (-1) ∧
    ((-1 : ℝ) < 0) := by
  rw [plane_eval_behind]
  norm_num

/-- C9 (code_bug): for the spec ray approaching the plane from z > 0 the
returned normal is (0, 0, -1), not the claimed (0, 0, 1): the branch tests
the z coordinate of the intersection point, which is identically zero in
exact arithmetic. -/
theorem C9_plane_normal_eval :
    (Plane_intersect specSphereRay).map Hit.normal = some (0, 0, -1) ∧
    ((0, 0, -1) : ℝ × ℝ × ℝ) ≠ (0, 0, 1) := by
  rw [plane_eval_from_above]
  norm_num

/-! ### Transform round-trip (C5) -/

lemma invtranslateMat_mul (x y z : ℝ) :
    invtranslateMat x y z * translateMat x y z = 1 := by
  unfold invtranslateMat translateMat
  ext i j
  fin_cases i <;> fin_cases j <;>
    simp [Matrix.mul_apply, Fin.sum_univ_four, Matrix.one_apply,
      Matrix.vecHead, Matrix.vecTail]

lemma invscaleMat_mul (x y z : ℝ) (hx : x ≠ 0) (hy : y ≠ 0) (hz : z ≠ 0) :
    invscaleMat x y z * scaleMat x y z = 1 := by
  unfold invscaleMat scaleMat
  ext i j
  fin_cases i <;> fin_cases j <;>
    simp [Matrix.mul_apply, Fin.sum_univ_four, Matrix.one_apply,
      Matrix.vecHead, Matrix.vecTail] <;>
    field_simp

lemma rotateMat_decomp (sx cx sy cy sz cz : ℝ) :
    rotateMat sx cx sy cy sz cz = rotXM sx cx * (rotYM sy cy * rotZM sz cz) := by
  unfold rotateMat rotXM rotYM rotZM
  ext i j
  fin_cases i <;> fin_cases j <;>
    simp [Matrix.mul_apply, Fin.sum_univ_four, Matrix.vecHead, Matrix.vecTail] <;>
    ring

lemma invrotateMat_eq_transpose (sx cx sy cy sz cz : ℝ) :
    invrotateMat sx cx sy cy sz cz = (rotateMat sx cx sy cy sz cz).transpose := by
  unfold invrotateMat rotateMat
  ext i j
  fin_cases i <;> fin_cases j <;>
    simp [Matrix.transpose_apply, Matrix.vecHead, Matrix.vecTail]

lemma rotXM_orth (s c : ℝ) (h : s ^ 2 + c ^ 2 = 1) :
    (rotXM s c).transpose * rotXM s c = 1 := by
  unfold rotXM
  ext i j
  fin_cases i <;> fin_cases j <;>
    simp [Matrix.mul_apply, Fin.sum_univ_four, Matrix.one_apply,
      Matrix.transpose_apply, Matrix.vecHead, Matrix.vecTail] <;>
    (first | ring1 | linear_combination h)

lemma rotYM_orth (s c : ℝ) (h : s ^ 2 + c ^ 2 = 1) :
    (rotYM s c).transpose * rotYM s c = 1 := by
  unfold rotYM
  ext i j
  fin_cases i <;> fin_cases j <;>
    simp [Matrix.mul_apply, Fin.sum_univ_four, Matrix.one_apply,
      Matrix.transpose_apply, Matrix.vecHead, Matrix.vecTail] <;>
    (first | ring1 | linear_combination h)

lemma rotZM_orth (s c : ℝ) (h : s ^ 2 + c ^ 2 = 1) :
    (rotZM s c).transpose * rotZM s c = 1 := by
  unfold rotZM
  ext i j
  fin_cases i <;> fin_cases j <;>
    simp [Matrix.mul_apply, Fin.sum_univ_four, Matrix.one_apply,
      Matrix.transpose_apply, Matrix.vecHead, Matrix.vecTail] <;>
    (first | ring1 | linear_combination h)

lemma invrotateMat_mul (sx cx sy cy sz cz : ℝ)
    (hx : sx ^ 2 + cx ^ 2 = 1) (hy : sy ^ 2 + cy ^ 2 = 1)
    (hz : sz ^ 2 + cz ^ 2 = 1) :
    invrotateMat sx cx sy cy sz cz * rotateMat sx cx sy cy sz cz = 1 := by
  rw [invrotateMat_eq_transpose, rotateMat_decomp, Matrix.transpose_mul,
    Matrix.transpose_mul]
  rw [Matrix.mul_assoc ((rotZM sz cz).transpose * (rotYM sy cy).transpose)]
  rw [← Matrix.mul_assoc (rotXM sx cx).transpose, rotXM_orth sx cx hx,
    Matrix.one_mul]
  rw [Matrix.mul_assoc (rotZM sz cz).transpose, ← Matrix.mul_assoc
    (rotYM sy cy).transpose, rotYM_orth sy cy hy, Matrix.one_mul,
    rotZM_orth sz cz hz]

lemma translateMat_row3 (x y z : ℝ) : translateMat x y z 3 = ![0, 0, 0, 1] := by
  funext j
  fin_cases j <;> rfl

lemma invtranslateMat_row3 (x y z : ℝ) :
    invtranslateMat x y z 3 = ![0, 0, 0, 1] := by
  funext j
  fin_cases j <;> rfl

lemma rotateMat_row3 (sx cx sy cy sz cz : ℝ) :
    rotateMat sx cx sy cy sz cz 3 = ![0, 0, 0, 1] := by
  funext j
  fin_cases j <;> rfl

lemma invrotateMat_row3 (sx cx sy cy sz cz : ℝ) :
    invrotateMat sx cx sy cy sz cz 3 = ![0, 0, 0, 1] := by
  funext j
  fin_cases j <;> rfl

lemma scaleMat_row3 (x y z : ℝ) : scaleMat x y z 3 = ![0, 0, 0, 1] := by
  funext j
  fin_cases j <;> rfl

lemma invscaleMat_row3 (x y z : ℝ) : invscaleMat x y z 3 = ![0, 0, 0, 1] := by
  funext j
  fin_cases j <;> rfl

lemma row3_mul {A B : Mat4} (hA : A 3 = ![0, 0, 0, 1])
    (hB : B 3 = ![0, 0, 0, 1]) : (A * B) 3 = ![0, 0, 0, 1] := by
  funext j
  simp [Matrix.mul_apply, Fin.sum_univ_four, congrFun hA, congrFun hB]

lemma identity_wellFormed : Transform.identity.wellFormed := by
  refine ⟨Matrix.one_mul 1, ?_, ?_⟩ <;>
    · funext j
      fin_cases j <;> simp [Transform.identity, Matrix.one_apply]

lemma wellFormed_step (t : Transform) (h : t.wellFormed) (op : TransformOp)
    (hs : scaleFactorsNonzero op) : (applyOp t op).wellFormed := by
  obtain ⟨hinv, hm3, hi3⟩ := h
  cases op with
  | translate x y z =>
    refine ⟨?_, row3_mul hm3 (translateMat_row3 x y z),
      row3_mul (invtranslateMat_row3 x y z) hi3⟩
    show matmul444 (invtranslateMat x y z) t.invmatrix *
      matmul444 t.matrix (translateMat x y z) = 1
    unfold matmul444
    rw [Matrix.mul_assoc, ← Matrix.mul_assoc t.invmatrix, hinv,
      Matrix.one_mul, invtranslateMat_mul]
  | rotate x y z =>
    have hx := Real.sin_sq_add_cos_sq (x * Real.pi / 180)
    have hy := Real.sin_sq_add_cos_sq (y * Real.pi / 180)
    have hz := Real.sin_sq_add_cos_sq (z * Real.pi / 180)
    refine ⟨?_, row3_mul hm3 (rotateMat_row3 _ _ _ _ _ _),
      row3_mul (invrotateMat_row3 _ _ _ _ _ _) hi3⟩
    show matmul444 (invrotateMat _ _ _ _ _ _) t.invmatrix *
      matmul444 t.matrix (rotateMat _ _ _ _ _ _) = 1
    unfold matmul444
    rw [Matrix.mul_assoc, ← Matrix.mul_assoc t.invmatrix, hinv,
      Matrix.one_mul, invrotateMat_mul _ _ _ _ _ _ hx hy hz]
  | scale x y z =>
    obtain ⟨hx, hy, hz⟩ := hs
    refine ⟨?_, row3_mul hm3 (scaleMat_row3 x y z),
      row3_mul (invscaleMat_row3 x y z) hi3⟩
    show matmul444 (invscaleMat x y z) t.invmatrix *
      matmul444 t.matrix (scaleMat x y z) = 1
    unfold matmul444
    rw [Matrix.mul_assoc, ← Matrix.mul_assoc t.invmatrix, hinv,
      Matrix.one_mul, invscaleMat_mul x y z hx hy hz]

lemma wellFormed_foldl (ops : List TransformOp) :
    ∀ t : Transform, t.wellFormed → (∀ op ∈ ops, scaleFactorsNonzero op) →
      (ops.foldl applyOp t).wellFormed := by
  induction ops with
  | nil => intro t ht _; simpa using ht
  | cons op rest ih =>
    intro t ht hall
    rw [List.foldl_cons]
    exact ih _ (wellFormed_step t ht op (hall op (List.mem_cons_self op rest)))
      (fun o ho => hall o (List.mem_cons_of_mem _ ho))

lemma composeOps_wellFormed (ops : List TransformOp)
    (h : ∀ op ∈ ops, scaleFactorsNonzero op) : (composeOps ops).wellFormed :=
  wellFormed_foldl ops Transform.identity identity_wellFormed h

lemma apply_roundtrip (t : Transform) (hw : t.wellFormed) (p : ℝ × ℝ × ℝ) :
    t.inverse.apply (t.apply p) = p := by
  obtain ⟨hinv, hm3, hi3⟩ := hw
  unfold Transform.apply Transform.inverse matmul414
  dsimp only
  set v : Fin 4 → ℝ := ![p.1, p.2.1, p.2.2, 1] with hv
  set r := t.matrix.mulVec v with hr
  have hr3 : r 3 = 1 := by
    rw [hr, Matrix.mulVec, Matrix.dotProduct]
    simp [Fin.sum_univ_four, congrFun hm3, hv]
  have hvr : (![r 0, r 1, r 2, 1] : Fin 4 → ℝ) = r := by
    funext j
    fin_cases j <;> simp [hr3]
  rw [hvr, Matrix.mulVec_mulVec, hinv, Matrix.one_mulVec]
  simp [hv]

/-- C5: any `Transform` built from the identity by translate/rotate/scale
steps (nonzero scale factors) satisfies the exact round trip
`T.inverse().apply(T.apply(p)) = p`, and its cached matrices multiply to
the identity. -/
theorem C5_transform_roundtrip (ops : List TransformOp)
    (h : ∀ op ∈ ops, scaleFactorsNonzero op) :
    (∀ p, (composeOps ops).inverse.apply ((composeOps ops).apply p) = p) ∧
    (composeOps ops).matrix * (composeOps ops).invmatrix = 1 := by
  have hw := composeOps_wellFormed ops h
  exact ⟨fun p => apply_roundtrip _ hw p, (Matrix.mul_eq_one_comm).mpr hw.1⟩

/-- C5 witness: the round trip at a concrete composed transform and point. -/
theorem C5_witness :
    (composeOps c5ops).inverse.apply ((composeOps c5ops).apply (4, 5, 6)) =
      (4, 5, 6) :=
  (C5_transform_roundtrip c5ops (by
    intro op hop
    fin_cases hop <;> norm_num [scaleFactorsNonzero])).1 (4, 5, 6)

/-! ### Sample averaging (C6) -/

lemma foldl_sampleAccum_replicate (n : ℕ) (s : RGBA) (acc : ℝ × ℝ × ℝ × ℝ) :
    (List.replicate n s).foldl sampleAccum acc =
      (acc.1 + n * (s.r * s.r * s.a), acc.2.1 + n * (s.g * s.g * s.a),
        acc.2.2.1 + n * (s.b * s.b * s.a), acc.2.2.2 + n * s.a) := by
  induction n generalizing acc with
  | zero => simp
  | succ k ih =>
    rw [List.replicate_succ, List.foldl_cons, ih]
    simp only [sampleAccum, Prod.mk.injEq]
    refine ⟨?_, ?_, ?_, ?_⟩ <;> push_cast <;> ring

/-- C6: averaging `n ≥ 1` identical opaque samples returns exactly the input
colour with alpha exactly 1, independent of `n`. -/
theorem C6_average_constant_opaque (r g b : ℝ) (n : ℕ)
    (hr0 : 0 ≤ r) (hr1 : r ≤ 1) (hg0 : 0 ≤ g) (hg1 : g ≤ 1)
    (hb0 : 0 ≤ b) (hb1 : b ≤ 1) (hn : 1 ≤ n) :
    RGBA.average (List.replicate n ⟨r, g, b, 1⟩) = ⟨r, g, b, 1⟩ := by
  have hn0 : (n : ℝ) ≠ 0 := Nat.cast_ne_zero.mpr (by omega)
  unfold RGBA.average
  rw [foldl_sampleAccum_replicate]
  simp only [List.length_replicate, zero_add, mul_one]
  rw [mul_div_cancel_left₀ _ hn0, mul_div_cancel_left₀ _ hn0,
    mul_div_cancel_left₀ _ hn0, div_self hn0,
    Real.sqrt_mul_self hr0, Real.sqrt_mul_self hg0, Real.sqrt_mul_self hb0]

/-- C6 witness: two samples of (1/2, 1/4, 1, alpha 1) average to exactly
that colour. -/
theorem C6_witness :
    RGBA.average (List.replicate 2 ⟨1/2, 1/4, 1, 1⟩) = ⟨1/2, 1/4, 1, 1⟩ :=
  C6_average_constant_opaque (1/2) (1/4) 1 2 (by norm_num) (by norm_num)
    (by norm_num) (by norm_num) (by norm_num) (by norm_num) (by norm_num)

/-! ### Pixel packing (C10) -/

lemma lor_mul_two_pow_add (k x y : ℕ) (hy : y < 2 ^ k) :
    x * 2 ^ k ||| y = x * 2 ^ k + y := by
  induction k generalizing x y with
  | zero =>
    interval_cases y
    simp
  | succ k ih =>
    have hx : x * 2 ^ (k + 1) = Nat.bit false (x * 2 ^ k) := by
      simp [Nat.bit_val]
      ring
    conv_lhs => rw [hx, ← Nat.bit_decomp y, Nat.lor_bit]
    rw [Nat.bit_val]
    rw [ih x (Nat.div2 y) (by
      have h1 := Nat.bodd_add_div2 y
      have h2 : Nat.div2 y = y / 2 := Nat.div2_val y
      omega)]
    have h1 := Nat.bodd_add_div2 y
    cases hb : Nat.bodd y <;> simp [hb] at h1 ⊢ <;> ring_nf <;> omega

lemma f64_as_u32_unit (x : ℝ) (h0 : 0 ≤ x) (h1 : x ≤ 1) :
    f64_as_u32 (x * 255) = (⌊x * 255⌋).toNat ∧ (⌊x * 255⌋).toNat < 256 := by
  have hf0 : (0 : ℤ) ≤ ⌊x * 255⌋ := Int.floor_nonneg.mpr (by positivity)
  have hf255 : ⌊x * 255⌋ ≤ 255 := by
    calc ⌊x * 255⌋ ≤ ⌊(255 : ℝ)⌋ := Int.floor_le_floor (by nlinarith)
    _ = 255 := by norm_num
  constructor
  · unfold f64_as_u32
    rw [max_eq_right hf0, min_eq_right (by omega)]
  · omega

/-- C10: under the `[0,1]` precondition on every channel, the packed `u32` is
`floor(r·255)·2²⁴ + floor(g·255)·2¹⁶ + floor(b·255)·2⁸ + floor(a·255)`, with
every channel value below 256 (one byte per channel). -/
theorem C10_pixel_packing (c : RGBA)
    (hr0 : 0 ≤ c.r) (hr1 : c.r ≤ 1) (hg0 : 0 ≤ c.g) (hg1 : c.g ≤ 1)
    (hb0 : 0 ≤ c.b) (hb1 : c.b ≤ 1) (ha0 : 0 ≤ c.a) (ha1 : c.a ≤ 1) :
    c.into_u32 =
      (⌊c.r * 255⌋).toNat * 2 ^ 24 + (⌊c.g * 255⌋).toNat * 2 ^ 16 +
        (⌊c.b * 255⌋).toNat * 2 ^ 8 + (⌊c.a * 255⌋).toNat ∧
      (⌊c.r * 255⌋).toNat < 256 ∧ (⌊c.g * 255⌋).toNat < 256 ∧
      (⌊c.b * 255⌋).toNat < 256 ∧ (⌊c.a * 255⌋).toNat < 256 := by
  obtain ⟨hr, hrb⟩ := f64_as_u32_unit c.r hr0 hr1
  obtain ⟨hg, hgb⟩ := f64_as_u32_unit c.g hg0 hg1
  obtain ⟨hb, hbb⟩ := f64_as_u32_unit c.b hb0 hb1
  obtain ⟨ha, hab⟩ := f64_as_u32_unit c.a ha0 ha1
  refine ⟨?_, hrb, hgb, hbb, hab⟩
  unfold RGBA.into_u32
  rw [hr, hg, hb, ha]
  set R := (⌊c.r * 255⌋).toNat
  set G := (⌊c.g * 255⌋).toNat
  set B := (⌊c.b * 255⌋).toNat
  set A := (⌊c.a * 255⌋).toNat
  rw [Nat.shiftLeft_eq, Nat.shiftLeft_eq, Nat.shiftLeft_eq,
    Nat.mod_eq_of_lt (by omega), Nat.mod_eq_of_lt (by omega),
    Nat.mod_eq_of_lt (by omega)]
  rw [lor_mul_two_pow_add 24 R (G * 2 ^ 16) (by omega)]
  rw [show R * 2 ^ 24 + G * 2 ^ 16 = (R * 2 ^ 8 + G) * 2 ^ 16 by ring,
    lor_mul_two_pow_add 16 _ (B * 2 ^ 8) (by omega)]
  rw [show (R * 2 ^ 8 + G) * 2 ^ 16 + B * 2 ^ 8 =
    (R * 2 ^ 16 + G * 2 ^ 8 + B) * 2 ^ 8 by ring,
    lor_mul_two_pow_add 8 _ A (by omega)]

set_option maxRecDepth 4000 in
/-- C10 witness: the packing identity at the half-grey opaque pixel. -/
theorem C10_witness :
    (RGBA.mk 0.5 0.5 0.5 1).into_u32 =
      (⌊(RGBA.mk 0.5 0.5 0.5 1).r * 255⌋).toNat * 2 ^ 24 +
        (⌊(RGBA.mk 0.5 0.5 0.5 1).g * 255⌋).toNat * 2 ^ 16 +
        (⌊(RGBA.mk 0.5 0.5 0.5 1).b * 255⌋).toNat * 2 ^ 8 +
        (⌊(RGBA.mk 0.5 0.5 0.5 1).a * 255⌋).toNat :=
  by
  refine (C10_pixel_packing (RGBA.mk 0.5 0.5 0.5 1) ?_ ?_ ?_ ?_ ?_ ?_ ?_ ?_).1 <;>
    norm_num

/-! ### Evaluation of concrete scene objects (for C4 and C7) -/

lemma identity_apply (p : ℝ × ℝ × ℝ) : Transform.identity.apply p = p := by
  unfold Transform.identity Transform.apply matmul414
  dsimp only
  rw [Matrix.one_mulVec]
  rfl

lemma identity_apply_nt (p : ℝ × ℝ × ℝ) :
    Transform.identity.apply_notranslate p = p := by
  unfold Transform.identity Transform.apply_notranslate matmul414
  dsimp only
  rw [Matrix.one_mulVec]
  rfl

lemma identity_inverse : Transform.identity.inverse = Transform.identity := rfl

lemma vec3norm_unit_z_neg : vec3norm (0, 0, -1) = ((0 : ℝ), (0 : ℝ), (-1 : ℝ)) := by
  unfold vec3norm
  norm_num [Real.sqrt_one]

lemma planeObj0_intersect_above :
    planeObj0.intersect specSphereRay =
      some ⟨5, (0, 0, 0), (0, 0, -1), (0.5, 0.5)⟩ := by
  unfold Object.intersect planeObj0
  rw [identity_inverse]
  dsimp only
  rw [identity_apply, identity_apply_nt]
  have : Ray.mk specSphereRay.origin specSphereRay.direction = specSphereRay := rfl
  rw [this, show ObjectType.plane.intersect = Plane_intersect from rfl,
    plane_eval_from_above]
  dsimp only
  rw [identity_apply, identity_apply_nt, vec3norm_unit_z_neg]

lemma planeObj0_intersect_behind :
    planeObj0.intersect behindRay =
      some ⟨-1, (0, 0, 0), (0, 0, -1), (0.5, 0.5)⟩ := by
  unfold Object.intersect planeObj0
  rw [identity_inverse]
  dsimp only
  rw [identity_apply, identity_apply_nt]
  have : Ray.mk behindRay.origin behindRay.direction = behindRay := rfl
  rw [this, show ObjectType.plane.intersect = Plane_intersect from rfl,
    show Plane_intersect behindRay = some ⟨-1, (0, 0, 0), (0, 0, -1), (0.5, 0.5)⟩
      from plane_eval_behind]
  dsimp only
  rw [identity_apply, identity_apply_nt, vec3norm_unit_z_neg]

lemma translate3_inverse_apply (p : ℝ × ℝ × ℝ) :
    (Transform.identity.translate 0 0 3).inverse.apply p =
      (p.1, p.2.1, p.2.2 - 3) := by
  unfold Transform.translate Transform.identity Transform.inverse
    Transform.apply matmul444 matmul414
  dsimp only
  rw [Matrix.mul_one]
  unfold invtranslateMat
  simp [Matrix.mulVec, Matrix.dotProduct, Fin.sum_univ_four,
    Matrix.vecHead, Matrix.vecTail]
  ring

lemma translate3_inverse_apply_nt (p : ℝ × ℝ × ℝ) :
    (Transform.identity.translate 0 0 3).inverse.apply_notranslate p = p := by
  unfold Transform.translate Transform.identity Transform.inverse
    Transform.apply_notranslate matmul444 matmul414
  dsimp only
  rw [Matrix.mul_one]
  unfold invtranslateMat
  simp [Matrix.mulVec, Matrix.dotProduct, Fin.sum_univ_four,
    Matrix.vecHead, Matrix.vecTail]

lemma translate3_apply (p : ℝ × ℝ × ℝ) :
    (Transform.identity.translate 0 0 3).apply p = (p.1, p.2.1, p.2.2 + 3) := by
  unfold Transform.translate Transform.identity Transform.apply
    matmul444 matmul414
  dsimp only
  rw [Matrix.one_mul]
  unfold translateMat
  simp [Matrix.mulVec, Matrix.dotProduct, Fin.sum_univ_four,
    Matrix.vecHead, Matrix.vecTail]

lemma translate3_apply_nt (p : ℝ × ℝ × ℝ) :
    (Transform.identity.translate 0 0 3).apply_notranslate p = p := by
  unfold Transform.translate Transform.identity Transform.apply_notranslate
    matmul444 matmul414
  dsimp only
  rw [Matrix.one_mul]
  unfold translateMat
  simp [Matrix.mulVec, Matrix.dotProduct, Fin.sum_univ_four,
    Matrix.vecHead, Matrix.vecTail]

lemma solve_linear_sphere3 : solve_linear 1 (-4) (15 / 4) = some (3 / 2) := by
  unfold solve_linear
  have hδ : (-4 : ℝ) * -4 - 4 * 1 * (15 / 4) = 1 := by norm_num
  rw [if_pos]
  · rw [hδ, Real.sqrt_one]
    norm_num [min_def]
  · rw [hδ]
    unfold f64EPSILON
    norm_num

lemma sphere_eval_behind :
    Sphere_intersect ⟨(0, 0, -2), (0, 0, 1)⟩ =
      some ⟨3 / 2, (0, 0, -0.5), (0, 0, -1), (0.5, 0)⟩ := by
  unfold Sphere_intersect
  norm_num
  rw [solve_linear_sphere3]
  norm_num [intersectionAt, vec3add, vec3scale, vec3norm, sqrt_quarter, sqrt_four,
    arg_zero_zero]

lemma sphereObj3_intersect_behind :
    sphereObj3.intersect behindRay =
      some ⟨3 / 2, (0, 0, 5 / 2), (0, 0, -1), (0.5, 0)⟩ := by
  unfold Object.intersect sphereObj3
  dsimp only
  rw [translate3_inverse_apply, translate3_inverse_apply_nt]
  have h1 : (Ray.mk (behindRay.origin.1, behindRay.origin.2.1,
      behindRay.origin.2.2 - 3) behindRay.direction) = ⟨(0, 0, -2), (0, 0, 1)⟩ := by
    unfold behindRay
    norm_num
  rw [h1, show ObjectType.sphere.intersect = Sphere_intersect from rfl,
    sphere_eval_behind]
  dsimp only
  rw [translate3_apply, translate3_apply_nt, vec3norm_unit_z_neg]
  norm_num

/-! ### Nearest-hit selection (C4) -/

lemma minByDist_go (l : List ObjectHit) (a : ObjectHit) :
    ∃ r, l.foldl
        (fun acc h =>
          match acc with
          | none => some h
          | some a => if h.hit.distance < a.hit.distance then some h else some a)
        (some a) = some r ∧
      ((r = a ∧ ∀ x ∈ l, a.hit.distance ≤ x.hit.distance) ∨
        (∃ pre post, l = pre ++ r :: post ∧ r.hit.distance < a.hit.distance ∧
          (∀ x ∈ pre, r.hit.distance < x.hit.distance) ∧
          (∀ x ∈ post, r.hit.distance ≤ x.hit.distance))) := by
  induction l generalizing a with
  | nil => exact ⟨a, rfl, Or.inl ⟨rfl, by simp⟩⟩
  | cons x t ih =>
    rw [List.foldl_cons]
    by_cases hcmp : x.hit.distance < a.hit.distance
    · rw [show (match some a with
          | none => some x
          | some a => if x.hit.distance < a.hit.distance then some x else some a) =
          some x by simp [hcmp]]
      obtain ⟨r, hfold, hcase⟩ := ih x
      refine ⟨r, hfold, Or.inr ?_⟩
      rcases hcase with ⟨rfl, hall⟩ | ⟨pre, post, hsplit, hra, hpre, hpost⟩
      · exact ⟨[], t, rfl, hcmp, by simp, hall⟩
      · refine ⟨x :: pre, post, by rw [hsplit]; rfl, lt_trans hra hcmp, ?_, hpost⟩
        intro y hy
        rcases List.mem_cons.mp hy with rfl | hy2
        · exact hra
        · exact hpre y hy2
    · rw [show (match some a with
          | none => some x
          | some a => if x.hit.distance < a.hit.distance then some x else some a) =
          some a by simp [hcmp]]
      obtain ⟨r, hfold, hcase⟩ := ih a
      refine ⟨r, hfold, ?_⟩
      rcases hcase with ⟨rfl, hall⟩ | ⟨pre, post, hsplit, hra, hpre, hpost⟩
      · refine Or.inl ⟨rfl, ?_⟩
        intro y hy
        rcases List.mem_cons.mp hy with rfl | hy2
        · exact not_lt.mp hcmp
        · exact hall y hy2
      · refine Or.inr ⟨x :: pre, post, by rw [hsplit]; rfl, hra, ?_, hpost⟩
        intro y hy
        rcases List.mem_cons.mp hy with rfl | hy2
        · exact lt_of_lt_of_le hra (not_lt.mp hcmp)
        · exact hpre y hy2

lemma minByDist_spec (l : List ObjectHit) :
    (minByDist l = none ↔ l = []) ∧
    ∀ oh, minByDist l = some oh →
      ∃ pre post, l = pre ++ oh :: post ∧
        (∀ x ∈ pre, oh.hit.distance < x.hit.distance) ∧
        (∀ x ∈ post, oh.hit.distance ≤ x.hit.distance) := by
  cases l with
  | nil =>
    constructor
    · simp [minByDist]
    · intro oh h
      simp [minByDist] at h
  | cons h t =>
    unfold minByDist
    rw [List.foldl_cons]
    obtain ⟨r, hfold, hcase⟩ := minByDist_go t h
    rw [show (match (none : Option ObjectHit) with
        | none => some h
        | some a => if h.hit.distance < a.hit.distance then some h else some a) =
        some h from rfl, hfold]
    constructor
    · simp
    · intro oh hoh
      rw [Option.some.injEq] at hoh
      subst hoh
      rcases hcase with ⟨rfl, hall⟩ | ⟨pre, post, hsplit, hra, hpre, hpost⟩
      · exact ⟨[], t, rfl, by simp, hall⟩
      · refine ⟨h :: pre, post, by rw [hsplit]; rfl, ?_, hpost⟩
        intro y hy
        rcases List.mem_cons.mp hy with rfl | hy2
        · exact hra
        · exact hpre y hy2

/-- C4 (corrected): `raytrace` selects the hit that is smallest in the
**total order on distances** — negative distances included, so it is not in
general the smallest non-negative one — and on ties the hit of the object
earliest in array order wins: the selected hit splits the per-object hit
list into strictly-farther predecessors and no-nearer successors. -/
theorem C4_nearest_hit_amended (objects : List Object) (ray : Ray)
    (ignore : Option ℕ) :
    (selectHit objects ray ignore = none ↔ sceneHits objects ray ignore = []) ∧
    ∀ oh, selectHit objects ray ignore = some oh →
      ∃ pre post, sceneHits objects ray ignore = pre ++ oh :: post ∧
        (∀ x ∈ pre, oh.hit.distance < x.hit.distance) ∧
        (∀ x ∈ post, oh.hit.distance ≤ x.hit.distance) := by
  unfold selectHit
  exact minByDist_spec (sceneHits objects ray ignore)

lemma sceneHits_two_eval :
    sceneHits [planeObj0, sphereObj3] behindRay none =
      [⟨behindRay, 0, planeObj0, ⟨-1, (0, 0, 0), (0, 0, -1), (0.5, 0.5)⟩⟩,
        ⟨behindRay, 1, sphereObj3, ⟨3 / 2, (0, 0, 5 / 2), (0, 0, -1), (0.5, 0)⟩⟩] := by
  unfold sceneHits
  simp [List.enum, planeObj0_intersect_behind, sphereObj3_intersect_behind]

lemma selectHit_two_eval :
    selectHit [planeObj0, sphereObj3] behindRay none =
      some ⟨behindRay, 0, planeObj0, ⟨-1, (0, 0, 0), (0, 0, -1), (0.5, 0.5)⟩⟩ := by
  rw [selectHit, sceneHits_two_eval]
  unfold minByDist
  norm_num [List.foldl]

/-- C4 counterexample: a plane hit behind the origin (distance -1) beats a
sphere hit in front (distance 3/2): the returned distance is -1, not the
smallest non-negative one (3/2). -/
theorem C4_counterexample :
    (selectHit [planeObj0, sphereObj3] behindRay none).map
        (fun oh => oh.hit.distance) = some (-1) ∧
    (sceneHits [planeObj0, sphereObj3] behindRay none).map
        (fun oh => oh.hit.distance) = [-1, 3 / 2] ∧
    ((-1 : ℝ) < 0 ∧ (0 : ℝ) ≤ 3 / 2 ∧ ((-1 : ℝ) ≠ 3 / 2)) := by
  rw [selectHit_two_eval, sceneHits_two_eval]
  norm_num

/-- C4 witness: the minimality statement applied to the two-object scene. -/
theorem C4_witness :
    ∃ pre post,
      sceneHits [planeObj0, sphereObj3] behindRay none =
        pre ++ (⟨behindRay, 0, planeObj0, ⟨-1, (0, 0, 0), (0, 0, -1), (0.5, 0.5)⟩⟩ :
          ObjectHit) :: post ∧
      (∀ x ∈ pre, (-1 : ℝ) < x.hit.distance) ∧
      (∀ x ∈ post, (-1 : ℝ) ≤ x.hit.distance) :=
  (C4_nearest_hit_amended [planeObj0, sphereObj3] behindRay none).2
    ⟨behindRay, 0, planeObj0, ⟨-1, (0, 0, 0), (0, 0, -1), (0.5, 0.5)⟩⟩
    selectHit_two_eval

/-! ### Unresolved material fallback (C7) -/

/-- C7: when the scene's material map does not resolve the hit object's
material id, `raytrace` shades with the built-in fallback — producing a
colour — and the fallback ignores the recursive trace callback entirely
(no recursion). -/
theorem C7_unresolved_material_fallback (objects : List Object)
    (materials : List (String × Material)) (fuel : ℕ) (ray : Ray)
    (ignore : Option ℕ) (oh : ObjectHit)
    (hsel : selectHit objects ray ignore = some oh)
    (hmat : materials.lookup oh.object.material = none) :
    Raytracer_raytrace objects materials (fuel + 1) ray ignore =
      Fallback_shade oh
        (fun r => Raytracer_raytrace objects materials fuel r (some oh.objIdx)) ∧
    ∀ cb cb', Fallback_shade oh cb = Fallback_shade oh cb' := by
  constructor
  · rw [Raytracer_raytrace, hsel]
    dsimp only
    rw [hmat]
    rfl
  · intro cb cb'
    rfl

lemma sceneHits_plane_above :
    sceneHits [planeObj0] specSphereRay none =
      [⟨specSphereRay, 0, planeObj0, ⟨5, (0, 0, 0), (0, 0, -1), (0.5, 0.5)⟩⟩] := by
  unfold sceneHits
  simp [List.enum, planeObj0_intersect_above]

lemma selectHit_plane_above :
    selectHit [planeObj0] specSphereRay none =
      some ⟨specSphereRay, 0, planeObj0, ⟨5, (0, 0, 0), (0, 0, -1), (0.5, 0.5)⟩⟩ := by
  rw [selectHit, sceneHits_plane_above]
  rfl

/-- C7 witness: a one-object scene with an unresolvable material id renders
the pixel through the fallback checkerboard, yielding a concrete colour. -/
theorem C7_witness :
    Raytracer_raytrace [planeObj0] [] 1 specSphereRay none =
      RGBA.mk 0.5 0 0.5 1 := by
  have h := (C7_unresolved_material_fallback [planeObj0] [] 0 specSphereRay none
    ⟨specSphereRay, 0, planeObj0, ⟨5, (0, 0, 0), (0, 0, -1), (0.5, 0.5)⟩⟩
    selectHit_plane_above (by simp)).1
  rw [h]
  unfold Fallback_shade f64_as_u8
  norm_num

/-! ### Tiling (C1): arithmetic and counting infrastructure -/

lemma tdiv_coe (a b : ℕ) : Int.tdiv (a : ℤ) (b : ℤ) = ((a / b : ℕ) : ℤ) := rfl

lemma tdiv_neg_coe (a b : ℕ) : Int.tdiv (-(a : ℤ)) (b : ℤ) = -((a / b : ℕ) : ℤ) := by
  cases a with
  | zero => simp
  | succ k =>
    have h : -(((k + 1 : ℕ) : ℤ)) = Int.negSucc k := by
      rw [Int.negSucc_eq]
      push_cast
      ring
    rw [h]
    rfl

lemma cnt_nil (p : ℕ × ℕ) : cnt p [] = 0 := rfl

lemma cnt_cons (p q : ℕ × ℕ) (l : List (ℕ × ℕ)) :
    cnt p (q :: l) = cnt p l + if q = p then 1 else 0 := by
  unfold cnt
  rw [List.countP_cons]
  by_cases h : q = p <;> simp [h]

lemma cnt_append (p : ℕ × ℕ) (l1 l2 : List (ℕ × ℕ)) :
    cnt p (l1 ++ l2) = cnt p l1 + cnt p l2 := by
  unfold cnt
  exact List.countP_append _ _ _

lemma cnt_eq_ite (p : ℕ × ℕ) (l : List (ℕ × ℕ)) (h : l.Nodup) :
    cnt p l = if p ∈ l then 1 else 0 := by
  induction l with
  | nil => simp [cnt_nil]
  | cons q t ih =>
    rw [List.nodup_cons] at h
    rw [cnt_cons, ih h.2]
    by_cases hpq : q = p
    · subst hpq
      simp [h.1]
    · by_cases hpt : p ∈ t <;> simp [hpq, hpt, List.mem_cons, Ne.symm hpq]

lemma cnt_vert (x a d : ℕ) (p : ℕ × ℕ) :
    cnt p ((List.range' a d).map fun y => (x, y)) =
      if p.1 = x ∧ a ≤ p.2 ∧ p.2 < a + d then 1 else 0 := by
  have hnd : ((List.range' a d).map fun y => (x, y)).Nodup := by
    refine List.Nodup.map ?_ (List.nodup_range' _ _ _ (by norm_num))
    intro u v huv
    simpa using congrArg Prod.snd huv
  rw [cnt_eq_ite _ _ hnd]
  have hmem : p ∈ ((List.range' a d).map fun y => (x, y)) ↔
      (p.1 = x ∧ a ≤ p.2 ∧ p.2 < a + d) := by
    rcases p with ⟨p1, p2⟩
    simp only [List.mem_map, List.mem_range'_1, Prod.mk.injEq]
    constructor
    · rintro ⟨y, hy, rfl, rfl⟩
      exact ⟨rfl, hy⟩
    · rintro ⟨rfl, h2⟩
      exact ⟨p2, h2, rfl, rfl⟩
  rw [if_congr hmem rfl rfl]

lemma cnt_horiz (Y a d : ℕ) (p : ℕ × ℕ) :
    cnt p ((List.range' a d).map fun x => (x, Y)) =
      if p.2 = Y ∧ a ≤ p.1 ∧ p.1 < a + d then 1 else 0 := by
  have hnd : ((List.range' a d).map fun x => (x, Y)).Nodup := by
    refine List.Nodup.map ?_ (List.nodup_range' _ _ _ (by norm_num))
    intro u v huv
    simpa using congrArg Prod.fst huv
  rw [cnt_eq_ite _ _ hnd]
  have hmem : p ∈ ((List.range' a d).map fun x => (x, Y)) ↔
      (p.2 = Y ∧ a ≤ p.1 ∧ p.1 < a + d) := by
    rcases p with ⟨p1, p2⟩
    simp only [List.mem_map, List.mem_range'_1, Prod.mk.injEq]
    constructor
    · rintro ⟨y, hy, rfl, rfl⟩
      exact ⟨rfl, hy⟩
    · rintro ⟨rfl, h2⟩
      exact ⟨p1, h2, rfl, rfl⟩
  rw [if_congr hmem rfl rfl]

lemma cnt_vert_desc (X Y d : ℕ) (hd : d ≤ Y + 1) (p : ℕ × ℕ) :
    cnt p ((List.range' 0 d).map fun j => (X, Y - j)) =
      if p.1 = X ∧ Y + 1 - d ≤ p.2 ∧ p.2 ≤ Y then 1 else 0 := by
  have hnd : ((List.range' 0 d).map fun j => (X, Y - j)).Nodup := by
    refine List.Nodup.map_on ?_ (List.nodup_range' _ _ _ (by norm_num))
    intro u hu v hv huv
    rw [List.mem_range'_1] at hu hv
    have := congrArg Prod.snd huv
    simp only at this
    omega
  rw [cnt_eq_ite _ _ hnd]
  have hmem : p ∈ ((List.range' 0 d).map fun j => (X, Y - j)) ↔
      (p.1 = X ∧ Y + 1 - d ≤ p.2 ∧ p.2 ≤ Y) := by
    rcases p with ⟨p1, p2⟩
    simp only [List.mem_map, List.mem_range'_1, Prod.mk.injEq]
    constructor
    · rintro ⟨j, hj, rfl, rfl⟩
      omega
    · rintro ⟨rfl, h2⟩
      exact ⟨Y - p2, by omega, rfl, by omega⟩
  rw [if_congr hmem rfl rfl]

lemma cnt_horiz_desc (X Y d : ℕ) (hd : d ≤ X + 1) (p : ℕ × ℕ) :
    cnt p ((List.range' 0 d).map fun j => (X - j, Y)) =
      if p.2 = Y ∧ X + 1 - d ≤ p.1 ∧ p.1 ≤ X then 1 else 0 := by
  have hnd : ((List.range' 0 d).map fun j => (X - j, Y)).Nodup := by
    refine List.Nodup.map_on ?_ (List.nodup_range' _ _ _ (by norm_num))
    intro u hu v hv huv
    rw [List.mem_range'_1] at hu hv
    have := congrArg Prod.fst huv
    simp only at this
    omega
  rw [cnt_eq_ite _ _ hnd]
  have hmem : p ∈ ((List.range' 0 d).map fun j => (X - j, Y)) ↔
      (p.2 = Y ∧ X + 1 - d ≤ p.1 ∧ p.1 ≤ X) := by
    rcases p with ⟨p1, p2⟩
    simp only [List.mem_map, List.mem_range'_1, Prod.mk.injEq]
    constructor
    · rintro ⟨j, hj, rfl, rfl⟩
      omega
    · rintro ⟨rfl, h2⟩
      exact ⟨X - p1, by omega, by omega, rfl⟩
  rw [if_congr hmem rfl rfl]

/-! ### Tiling (C1): the hilbert sub-block positions cover the block -/

lemma hilbert8_range : ∀ idx ∈ Finset.range 64,
    (hilbert_index_to_position 8 idx).1 < 8 ∧ (hilbert_index_to_position 8 idx).2 < 8 := by
  decide

lemma hilbert8_cnt : ∀ tx ∈ Finset.range 8, ∀ ty ∈ Finset.range 8,
    (List.range 64).countP
      (fun idx => decide (hilbert_index_to_position 8 idx = (tx, ty))) = 1 := by
  decide

lemma hilbert4_range : ∀ idx ∈ Finset.range 16,
    (hilbert_index_to_position 4 idx).1 < 4 ∧ (hilbert_index_to_position 4 idx).2 < 4 := by
  decide

lemma hilbert4_cnt : ∀ tx ∈ Finset.range 4, ∀ ty ∈ Finset.range 4,
    (List.range 16).countP
      (fun idx => decide (hilbert_index_to_position 4 idx = (tx, ty))) = 1 := by
  decide

lemma hilbert_pos_lt (hs : ℕ) (hhs : hs = 8 ∨ hs = 4) (idx : ℕ)
    (hidx : idx < hs * hs) :
    (hilbert_index_to_position hs idx).1 < hs ∧
      (hilbert_index_to_position hs idx).2 < hs := by
  rcases hhs with rfl | rfl
  · exact hilbert8_range idx (Finset.mem_range.mpr hidx)
  · exact hilbert4_range idx (Finset.mem_range.mpr hidx)

lemma hilbert_cnt_all (hs : ℕ) (hhs : hs = 8 ∨ hs = 4) (p : ℕ × ℕ)
    (h1 : p.1 < hs) (h2 : p.2 < hs) :
    (List.range (hs * hs)).countP
      (fun idx => decide (hilbert_index_to_position hs idx = p)) = 1 := by
  rcases hhs with rfl | rfl
  · exact hilbert8_cnt p.1 (Finset.mem_range.mpr h1) p.2 (Finset.mem_range.mpr h2)
  · exact hilbert4_cnt p.1 (Finset.mem_range.mpr h1) p.2 (Finset.mem_range.mpr h2)

lemma spiralRotInv_lt (hs dir pd : ℕ) (p : ℕ × ℕ) (hhs : 1 ≤ hs)
    (hp1 : p.1 < hs) (hp2 : p.2 < hs) :
    (spiralRotInv hs dir pd p).1 < hs ∧ (spiralRotInv hs dir pd p).2 < hs := by
  unfold spiralRotInv
  split_ifs <;> constructor <;> simp <;> omega

lemma spiralRotate_eq_iff (hs dir pd : ℕ) (q p : ℕ × ℕ)
    (hq1 : q.1 < hs) (hq2 : q.2 < hs) (hp1 : p.1 < hs) (hp2 : p.2 < hs) :
    spiralRotate hs dir pd q = p ↔ q = spiralRotInv hs dir pd p := by
  unfold spiralRotate spiralRotInv
  rcases q with ⟨q1, q2⟩
  rcases p with ⟨p1, p2⟩
  simp only at hq1 hq2 hp1 hp2
  split_ifs <;> (simp only [Prod.ext_iff] <;> omega)

lemma rot_hilbert_cnt (hs : ℕ) (hhs : hs = 8 ∨ hs = 4) (dir pd : ℕ)
    (p : ℕ × ℕ) (hp1 : p.1 < hs) (hp2 : p.2 < hs) :
    (List.range (hs * hs)).countP
      (fun idx =>
        decide (spiralRotate hs dir pd (hilbert_index_to_position hs idx) = p)) = 1 := by
  have hinv := spiralRotInv_lt hs dir pd p (by rcases hhs with rfl | rfl <;> omega) hp1 hp2
  have hcong : ∀ idx ∈ List.range (hs * hs),
      ((decide (spiralRotate hs dir pd (hilbert_index_to_position hs idx) = p)) = true ↔
        (decide (hilbert_index_to_position hs idx = spiralRotInv hs dir pd p)) = true) := by
    intro idx hidx
    rw [List.mem_range] at hidx
    obtain ⟨hq1, hq2⟩ := hilbert_pos_lt hs hhs idx hidx
    simpa using spiralRotate_eq_iff hs dir pd _ p hq1 hq2 hp1 hp2
  rw [List.countP_congr hcong]
  exact hilbert_cnt_all hs hhs _ hinv.1 hinv.2

/-! ### Tiling (C1): the spiral visits every block exactly once -/

lemma spiralBlocks_succ (n fuel : ℕ) (b : ℕ × ℕ) (dir i : ℕ) :
    spiralBlocks n (fuel + 1) b dir i =
      b :: (if b.1 = (n - 1) / 2 ∧ b.2 = (n - 1) / 2 then []
        else spiralBlocks n fuel (spiralStep n b dir i).1
          (spiralStep n b dir i).2.1 (spiralStep n b dir i).2.2) := rfl

lemma center_coord (c : ℕ) : (2 * c + 1 - 1) / 2 = c := by omega

lemma run_up (n i x c : ℕ) (hn : n = 2 * c + 1) (hx : x ≠ c) :
    ∀ d y0 fuel, 1 ≤ d → y0 + d = n - i - 1 → d ≤ fuel →
      spiralBlocks n fuel (x, y0) 0 i =
        ((List.range' y0 d).map fun y => (x, y)) ++
          spiralBlocks n (fuel - d) (x, n - i - 1) 1 i := by
  intro d
  induction d with
  | zero => omega
  | succ d ih =>
    intro y0 fuel _ h2 h3
    obtain ⟨f, rfl⟩ : ∃ f, fuel = f + 1 := ⟨fuel - 1, by omega⟩
    rw [spiralBlocks_succ, if_neg (by
      subst hn
      rw [center_coord]
      intro hc
      exact hx hc.1)]
    simp only [spiralStep]
    by_cases hd0 : d = 0
    · subst hd0
      rw [if_pos (by omega : y0 + 1 = n - i - 1)]
      have hr : List.range' y0 1 = [y0] := rfl
      simp only [hr, List.map_cons, List.map_nil, List.cons_append, List.nil_append]
      have : y0 + 1 = n - i - 1 := by omega
      rw [this]
      rfl
    · rw [if_neg (by omega : ¬ y0 + 1 = n - i - 1)]
      rw [List.range'_succ, List.map_cons, List.cons_append]
      have := ih (y0 + 1) f (by omega) (by omega) (by omega)
      simp only at this ⊢
      rw [this]
      have hfe : f - d = f + 1 - (d + 1) := by omega
      rw [hfe]

lemma run_right (n i Y c : ℕ) (hn : n = 2 * c + 1) (hY : Y ≠ c) :
    ∀ d x0 fuel, 1 ≤ d → x0 + d = n - i - 1 → d ≤ fuel →
      spiralBlocks n fuel (x0, Y) 1 i =
        ((List.range' x0 d).map fun xx => (xx, Y)) ++
          spiralBlocks n (fuel - d) (n - i - 1, Y) 2 i := by
  intro d
  induction d with
  | zero => omega
  | succ d ih =>
    intro x0 fuel _ h2 h3
    obtain ⟨f, rfl⟩ : ∃ f, fuel = f + 1 := ⟨fuel - 1, by omega⟩
    rw [spiralBlocks_succ, if_neg (by
      subst hn
      rw [center_coord]
      intro hc
      exact hY hc.2)]
    simp only [spiralStep]
    by_cases hd0 : d = 0
    · subst hd0
      rw [if_pos (by omega : x0 + 1 = n - i - 1)]
      have hr : List.range' x0 1 = [x0] := rfl
      simp only [hr, List.map_cons, List.map_nil, List.cons_append, List.nil_append]
      have : x0 + 1 = n - i - 1 := by omega
      rw [this]
      rfl
    · rw [if_neg (by omega : ¬ x0 + 1 = n - i - 1)]
      rw [List.range'_succ, List.map_cons, List.cons_append]
      have := ih (x0 + 1) f (by omega) (by omega) (by omega)
      simp only at this ⊢
      rw [this]
      have hfe : f - d = f + 1 - (d + 1) := by omega
      rw [hfe]

lemma run_down (n i X c : ℕ) (hn : n = 2 * c + 1) (hX : X ≠ c) :
    ∀ d y0 fuel, 1 ≤ d → y0 = i + d → d ≤ fuel →
      spiralBlocks n fuel (X, y0) 2 i =
        ((List.range' 0 d).map fun j => (X, y0 - j)) ++
          spiralBlocks n (fuel - d) (X, i) 3 i := by
  intro d
  induction d with
  | zero => omega
  | succ d ih =>
    intro y0 fuel _ h2 h3
    obtain ⟨f, rfl⟩ : ∃ f, fuel = f + 1 := ⟨fuel - 1, by omega⟩
    rw [spiralBlocks_succ, if_neg (by
      subst hn
      rw [center_coord]
      intro hc
      exact hX hc.1)]
    simp only [spiralStep]
    by_cases hd0 : d = 0
    · subst hd0
      rw [if_pos (by omega : y0 - 1 = i)]
      have hr : List.range' 0 1 = [0] := rfl
      simp only [hr, List.map_cons, List.map_nil, List.cons_append, List.nil_append,
        Nat.sub_zero]
      have : y0 - 1 = i := by omega
      rw [this]
      rfl
    · rw [if_neg (by omega : ¬ y0 - 1 = i)]
      have := ih (y0 - 1) f (by omega) (by omega) (by omega)
      simp only at this ⊢
      rw [this]
      have hfe : f - d = f + 1 - (d + 1) := by omega
      rw [← hfe]
      have hlist : (List.range' 0 (d + 1)).map (fun j => (X, y0 - j)) =
          (X, y0) :: (List.range' 0 d).map (fun j => (X, y0 - 1 - j)) := by
        rw [List.range'_succ, List.map_cons, Nat.sub_zero]
        congr 1
        have h1 : List.range' 1 d = (List.range' 0 d).map (· + 1) := by
          rw [List.range'_eq_map_range, List.range'_eq_map_range]
          rw [List.map_map]
          apply List.map_congr_left
          intro a _
          simp [Nat.add_comm]
        rw [h1, List.map_map]
        apply List.map_congr_left
        intro a _
        simp only [Function.comp_apply]
        congr 1
        omega
      rw [hlist, List.cons_append]

lemma run_left (n i c : ℕ) (hn : n = 2 * c + 1) (hi : i ≠ c) :
    ∀ d x0 fuel, 1 ≤ d → x0 = i + 1 + d → d ≤ fuel →
      spiralBlocks n fuel (x0, i) 3 i =
        ((List.range' 0 d).map fun j => (x0 - j, i)) ++
          spiralBlocks n (fuel - d) (i + 1, i) 0 (i + 1) := by
  intro d
  induction d with
  | zero => omega
  | succ d ih =>
    intro x0 fuel _ h2 h3
    obtain ⟨f, rfl⟩ : ∃ f, fuel = f + 1 := ⟨fuel - 1, by omega⟩
    rw [spiralBlocks_succ, if_neg (by
      subst hn
      rw [center_coord]
      intro hc
      exact hi hc.2)]
    simp only [spiralStep]
    by_cases hd0 : d = 0
    · subst hd0
      rw [if_pos (by omega : x0 - 1 = i + 1)]
      have hr : List.range' 0 1 = [0] := rfl
      simp only [hr, List.map_cons, List.map_nil, List.cons_append, List.nil_append,
        Nat.sub_zero]
      have : x0 - 1 = i + 1 := by omega
      rw [this]
      rfl
    · rw [if_neg (by omega : ¬ x0 - 1 = i + 1)]
      have := ih (x0 - 1) f (by omega) (by omega) (by omega)
      simp only at this ⊢
      rw [this]
      have hfe : f - d = f + 1 - (d + 1) := by omega
      rw [← hfe]
      have hlist : (List.range' 0 (d + 1)).map (fun j => (x0 - j, i)) =
          (x0, i) :: (List.range' 0 d).map (fun j => (x0 - 1 - j, i)) := by
        rw [List.range'_succ, List.map_cons, Nat.sub_zero]
        congr 1
        have h1 : List.range' 1 d = (List.range' 0 d).map (· + 1) := by
          rw [List.range'_eq_map_range, List.range'_eq_map_range]
          rw [List.map_map]
          apply List.map_congr_left
          intro a _
          simp [Nat.add_comm]
        rw [h1, List.map_map]
        apply List.map_congr_left
        intro a _
        simp only [Function.comp_apply]
        congr 1
        omega
      rw [hlist, List.cons_append]

lemma sq_odd_pred (u : ℕ) (hu : 1 ≤ u) :
    (2 * (u - 1) + 1) ^ 2 = 4 * (u * u) - 4 * u + 1 := by
  obtain ⟨v, rfl⟩ : ∃ v, u = v + 1 := ⟨u - 1, by omega⟩
  have h2 : v + 1 - 1 = v := rfl
  rw [h2]
  have h3 : 4 * ((v + 1) * (v + 1)) - 4 * (v + 1) + 1 = 4 * (v * v) + 4 * v + 1 := by
    have h4 : (v + 1) * (v + 1) = v * v + 2 * v + 1 := by ring
    rw [h4]
    omega
  rw [h3]
  ring

set_option maxHeartbeats 1600000 in
lemma spiral_ring (n c : ℕ) (hn : n = 2 * c + 1) :
    ∀ j k, k = c - j → 1 ≤ k → ∀ fuel, (2 * (c - k) + 1) ^ 2 + 1 ≤ fuel → ∀ p : ℕ × ℕ,
      cnt p (spiralBlocks n fuel (k, k - 1) 0 k) =
        if (k ≤ p.1 ∧ p.1 ≤ 2 * c - k ∧ k ≤ p.2 ∧ p.2 ≤ 2 * c - k) ∨ p = (k, k - 1)
        then 1 else 0 := by
  intro j
  induction j with
  | zero =>
    intro k hk hk1 fuel hfuel p
    have hkc : k = c := by omega
    subst hkc
    have hc1 : 1 ≤ k := hk1
    have hsq : (2 * (k - k) + 1) ^ 2 = 1 := by simp
    obtain ⟨f, rfl⟩ : ∃ f, fuel = f + 2 := ⟨fuel - 2, by omega⟩
    rw [show f + 2 = (f + 1) + 1 from rfl, spiralBlocks_succ, if_neg (by
      subst hn
      rw [center_coord]
      intro hc
      exact absurd hc.2 (by show ¬ k - 1 = k ; omega))]
    simp only [spiralStep]
    rw [if_pos (by omega : k - 1 + 1 = n - k - 1)]
    rw [spiralBlocks_succ, if_pos (by
      subst hn
      rw [center_coord]
      exact ⟨rfl, by show k - 1 + 1 = k ; omega⟩)]
    rw [cnt_cons, cnt_cons, cnt_nil]
    rcases p with ⟨p1, p2⟩
    have hcc : ((k, k - 1).1, (k, k - 1).2 + 1) = (k, k - 1 + 1) := rfl
    rw [hcc]
    simp only [Prod.mk.injEq]
    split_ifs <;> omega
  | succ j ih =>
    intro k hk hk1 fuel hfuel p
    have hkc : k < c := by omega
    set u := c - k with hu
    have hu1 : 1 ≤ u := by omega
    have huA : u ≤ u * u := Nat.le_mul_of_pos_left u (by omega)
    have hsq1 : (2 * u + 1) ^ 2 = 4 * (u * u) + 4 * u + 1 := by ring
    have hsq2 : (2 * (c - (k + 1)) + 1) ^ 2 = 4 * (u * u) - 4 * u + 1 := by
      rw [show c - (k + 1) = u - 1 by omega]
      exact sq_odd_pred u hu1
    -- the four straight runs around ring k
    rw [run_up n k k c hn (by omega) (2 * u + 1) (k - 1) fuel (by omega)
      (by omega) (by omega)]
    rw [run_right n k (n - k - 1) c hn (by omega) (2 * u) k _ (by omega)
      (by omega) (by omega)]
    rw [run_down n k (n - k - 1) c hn (by omega) (2 * u) (n - k - 1) _ (by omega)
      (by omega) (by omega)]
    rw [run_left n k c hn (by omega) (2 * u - 1) (n - k - 1) _ (by omega)
      (by omega) (by omega)]
    have hrest := ih (k + 1) (by omega) (by omega)
      (fuel - (2 * u + 1) - 2 * u - 2 * u - (2 * u - 1)) (by omega) p
    simp only [Nat.add_sub_cancel] at hrest
    rw [cnt_append, cnt_append, cnt_append, cnt_append]
    rw [cnt_vert, cnt_horiz, cnt_vert_desc _ _ _ (by omega),
      cnt_horiz_desc _ _ _ (by omega), hrest]
    rcases p with ⟨p1, p2⟩
    simp only [Prod.mk.injEq]
    split_ifs <;> omega

lemma spiral_cnt_top (n c : ℕ) (hn : n = 2 * c + 1) (p : ℕ × ℕ) :
    cnt p (spiralBlocks n (n * n) (0, 0) 0 0) =
      if p.1 ≤ 2 * c ∧ p.2 ≤ 2 * c then 1 else 0 := by
  by_cases hc : c = 0
  · subst hc
    subst hn
    rw [show 1 * 1 = 0 + 1 from rfl, spiralBlocks_succ, if_pos (by norm_num)]
    rw [cnt_cons, cnt_nil]
    rcases p with ⟨p1, p2⟩
    simp only [Prod.mk.injEq]
    split_ifs <;> omega
  · have hc1 : 1 ≤ c := by omega
    have hnn : n * n = 4 * (c * c) + 4 * c + 1 := by
      rw [hn]
      ring
    have hcc : c ≤ c * c := Nat.le_mul_of_pos_left c (by omega)
    have hsqc : (2 * (c - 1) + 1) ^ 2 = 4 * (c * c) - 4 * c + 1 :=
      sq_odd_pred c hc1
    rw [run_up n 0 0 c hn (by omega) (2 * c) 0 (n * n) (by omega) (by omega)
      (by omega)]
    rw [run_right n 0 (n - 0 - 1) c hn (by omega) (2 * c) 0 _ (by omega)
      (by omega) (by omega)]
    rw [run_down n 0 (n - 0 - 1) c hn (by omega) (2 * c) (n - 0 - 1) _ (by omega)
      (by omega) (by omega)]
    rw [run_left n 0 c hn (by omega) (2 * c - 1) (n - 0 - 1) _ (by omega)
      (by omega) (by omega)]
    have hrest := spiral_ring n c hn (c - 1) 1 (by omega) (by omega)
      (n * n - 2 * c - 2 * c - 2 * c - (2 * c - 1)) (by omega) p
    have h11 : (1 : ℕ) - 1 = 0 := rfl
    rw [h11] at hrest
    rw [cnt_append, cnt_append, cnt_append, cnt_append]
    rw [cnt_vert, cnt_horiz, cnt_vert_desc _ _ _ (by omega),
      cnt_horiz_desc _ _ _ (by omega), hrest]
    rcases p with ⟨p1, p2⟩
    simp only [Prod.mk.injEq]
    split_ifs <;> omega

/-! ### Tiling (C1): assembling the partition statement -/

lemma countP_flatMap {α β : Type} (l : List α) (f : α → List β) (p : β → Bool) :
    (l.flatMap f).countP p = (l.map fun a => (f a).countP p).sum := by
  induction l with
  | nil => rfl
  | cons a tl ih =>
    rw [List.flatMap_cons, List.countP_append, List.map_cons, List.sum_cons, ih]

lemma sum_map_indicator {α : Type} (l : List α) (g : α → ℕ × ℕ) (B : ℕ × ℕ)
    (f : α → ℕ) (hf : ∀ a ∈ l, f a = if g a = B then 1 else 0) :
    (l.map f).sum = cnt B (l.map g) := by
  induction l with
  | nil => rfl
  | cons a tl ih =>
    rw [List.map_cons, List.sum_cons, List.map_cons, cnt_cons,
      hf a (List.mem_cons_self a tl), ih (fun b hb => hf b (List.mem_cons_of_mem a hb))]
    omega

lemma spiralStates_map_fst (n : ℕ) : ∀ fuel (b : ℕ × ℕ) dir pd i,
    (spiralStates n fuel b dir pd i).map (fun s => s.1) =
      spiralBlocks n fuel b dir i := by
  intro fuel
  induction fuel with
  | zero => intro b dir pd i; rfl
  | succ f ih =>
    intro b dir pd i
    show ((b, dir, pd) :: _).map _ = _
    rw [List.map_cons, spiralBlocks_succ]
    by_cases hc : b.1 = (n - 1) / 2 ∧ b.2 = (n - 1) / 2
    · rw [if_pos hc, if_pos hc]
      rfl
    · rw [if_neg hc, if_neg hc, ih]

lemma lor_one_eq (m : ℕ) : m ||| 1 = 2 * (m / 2) + 1 := by
  conv_lhs => rw [← Nat.bit_decomp m]
  have h1 : (1 : ℕ) = Nat.bit true 0 := rfl
  rw [h1, Nat.lor_bit]
  simp [Nat.bit_val, Nat.div2_val]

lemma ceil_mul_ge (w bs : ℕ) (h : 1 ≤ bs) : w ≤ ((w + bs - 1) / bs) * bs := by
  have h1 := Nat.div_add_mod (w + bs - 1) bs
  have h2 : (w + bs - 1) % bs < bs := Nat.mod_lt _ (by omega)
  have h3 : ((w + bs - 1) / bs) * bs = bs * ((w + bs - 1) / bs) := Nat.mul_comm _ _
  omega

lemma blockCnt_mul_ge (w bs : ℕ) (hbs : 1 ≤ bs) :
    w ≤ (if w ≤ bs then 1 else divide_up w bs) * bs := by
  by_cases hcase : w ≤ bs
  · rw [if_pos hcase]
    omega
  · rw [if_neg hcase]
    exact ceil_mul_ge w bs hbs

lemma euclid_unique (b1 tx hs M : ℕ) (htx : tx < hs) (h : b1 * hs + tx = M) :
    b1 = M / hs ∧ tx = M % hs := by
  subst h
  constructor
  · rw [Nat.add_comm, Nat.add_mul_div_right _ _ (by omega : 0 < hs),
      Nat.div_eq_of_lt htx]
    omega
  · rw [Nat.add_comm, Nat.add_mul_mod_self_right, Nat.mod_eq_of_lt htx]

lemma countP_filterMap {α β : Type} (f : α → Option β) (p : β → Bool) (l : List α) :
    (l.filterMap f).countP p =
      l.countP (fun a => ((f a).map p).getD false) := by
  induction l with
  | nil => rfl
  | cons a tl ih =>
    rw [List.filterMap_cons]
    cases hfa : f a with
    | none =>
      rw [List.countP_cons, ih, hfa]
      simp
    | some b =>
      rw [List.countP_cons, List.countP_cons, ih, hfa]
      simp

lemma grid_cell_iff (x t K w : ℕ) (ht : 1 ≤ t) (hx : x < w) :
    (t * K ≤ x ∧ x < t * K + min t (w - t * K)) ↔ K = x / t := by
  constructor
  · rintro ⟨h1, h2⟩
    have h3 : x < t * K + t := by
      have := min_le_left t (w - t * K)
      omega
    have hKt : K * t = t * K := Nat.mul_comm K t
    have h4 : (K + 1) * t = t * K + t := by ring
    exact (Nat.div_eq_of_lt_le (by omega) (by omega)).symm
  · intro hK
    subst hK
    have h1 : t * (x / t) ≤ x := Nat.mul_div_le x t
    have h2 : x < t * (x / t + 1) := Nat.lt_mul_div_succ x (by omega)
    have h3 : t * (x / t + 1) = t * (x / t) + t := by ring
    refine ⟨by omega, ?_⟩
    rcases min_choice t (w - t * (x / t)) with hm | hm <;> rw [hm] <;> omega

lemma tile_cond_iff (w t hs bs qx b1 tx x : ℕ) (ht : 1 ≤ t)
    (hbs : bs = t * hs) (hx : x < w) :
    (0 ≤ ((b1 * bs + tx * t : ℕ) : ℤ) + -((qx * t : ℕ) : ℤ) ∧
      ((b1 * bs + tx * t : ℕ) : ℤ) + -((qx * t : ℕ) : ℤ) < (w : ℤ) ∧
      (((b1 * bs + tx * t : ℕ) : ℤ) + -((qx * t : ℕ) : ℤ)).toNat ≤ x ∧
      x < (((b1 * bs + tx * t : ℕ) : ℤ) + -((qx * t : ℕ) : ℤ)).toNat +
        min t (w - (((b1 * bs + tx * t : ℕ) : ℤ) + -((qx * t : ℕ) : ℤ)).toNat)) ↔
    b1 * hs + tx = x / t + qx := by
  have hprod : b1 * bs + tx * t = t * (b1 * hs + tx) := by
    rw [hbs]
    ring
  set M1 := b1 * hs + tx with hM1
  by_cases hq : qx ≤ M1
  · have hmul : t * qx ≤ t * M1 := Nat.mul_le_mul_left t hq
    have hsub : t * (M1 - qx) = t * M1 - t * qx := Nat.mul_sub t M1 qx
    have hP : ((b1 * bs + tx * t : ℕ) : ℤ) + -((qx * t : ℕ) : ℤ) =
        ((t * (M1 - qx) : ℕ) : ℤ) := by
      rw [hprod, hsub]
      push_cast [Nat.sub_add_cancel]
      rw [Int.ofNat_sub hmul]
      push_cast
      ring
    rw [hP]
    rw [Int.toNat_natCast]
    have hgrid := grid_cell_iff x t (M1 - qx) w ht hx
    constructor
    · rintro ⟨_, _, h3, h4⟩
      have := hgrid.mp ⟨h3, h4⟩
      omega
    · intro hM
      have hK : M1 - qx = x / t := by omega
      obtain ⟨h3, h4⟩ := hgrid.mpr hK
      have h5 : t * (M1 - qx) ≤ x := h3
      refine ⟨by positivity, ?_, h3, h4⟩
      have : t * (M1 - qx) < w := by omega
      exact_mod_cast Int.ofNat_lt.mpr this
  · have hM1lt : M1 < qx := by omega
    have hmul : t * M1 < t * qx := mul_lt_mul_of_pos_left hM1lt (by omega)
    have hcomm : qx * t = t * qx := Nat.mul_comm qx t
    have hneg : ((b1 * bs + tx * t : ℕ) : ℤ) + -((qx * t : ℕ) : ℤ) < 0 := by
      rw [hprod, hcomm]
      omega
    constructor
    · rintro ⟨h1, _⟩
      exact absurd h1 (by omega)
    · intro hM
      have h1 : qx ≤ M1 := by
        rw [hM]
        exact Nat.le_add_left qx (x / t)
      exact absurd hM1lt (Nat.not_lt.mpr h1)

lemma spiralRotate_lt (hs dir pd : ℕ) (q : ℕ × ℕ) (hhs : 1 ≤ hs)
    (h1 : q.1 < hs) (h2 : q.2 < hs) :
    (spiralRotate hs dir pd q).1 < hs ∧ (spiralRotate hs dir pd q).2 < hs := by
  unfold spiralRotate
  split_ifs <;> constructor <;> simp <;> omega

set_option maxHeartbeats 1000000 in
lemma tilesOfBlock_cnt (w h t hs bs qx qy : ℕ) (b : ℕ × ℕ) (dir pd : ℕ)
    (ht : 1 ≤ t) (hhs : hs = 8 ∨ hs = 4) (hbs : bs = t * hs)
    (x y : ℕ) (hx : x < w) (hy : y < h) :
    (tilesOfBlock w h t hs bs (-((qx * t : ℕ) : ℤ), -((qy * t : ℕ) : ℤ)) b dir
        pd).countP (fun tile => decide (pixelIn x y tile)) =
      if b = ((x / t + qx) / hs, (y / t + qy) / hs) then 1 else 0 := by
  have hs1 : 1 ≤ hs := by rcases hhs with rfl | rfl <;> omega
  unfold tilesOfBlock
  rw [countP_filterMap]
  have key : ∀ pr : ℕ × ℕ,
      (((0 ≤ ((b.1 * bs + pr.1 * t : ℕ) : ℤ) + -((qx * t : ℕ) : ℤ) ∧
        ((b.1 * bs + pr.1 * t : ℕ) : ℤ) + -((qx * t : ℕ) : ℤ) < (w : ℤ) ∧
        0 ≤ ((b.2 * bs + pr.2 * t : ℕ) : ℤ) + -((qy * t : ℕ) : ℤ) ∧
        ((b.2 * bs + pr.2 * t : ℕ) : ℤ) + -((qy * t : ℕ) : ℤ) < (h : ℤ)) ∧
       pixelIn x y
        ⟨(((b.1 * bs + pr.1 * t : ℕ) : ℤ) + -((qx * t : ℕ) : ℤ)).toNat,
          (((b.1 * bs + pr.1 * t : ℕ) : ℤ) + -((qx * t : ℕ) : ℤ)).toNat +
            min t (w - (((b.1 * bs + pr.1 * t : ℕ) : ℤ) + -((qx * t : ℕ) : ℤ)).toNat),
          (((b.2 * bs + pr.2 * t : ℕ) : ℤ) + -((qy * t : ℕ) : ℤ)).toNat,
          (((b.2 * bs + pr.2 * t : ℕ) : ℤ) + -((qy * t : ℕ) : ℤ)).toNat +
            min t (h - (((b.2 * bs + pr.2 * t : ℕ) : ℤ) + -((qy * t : ℕ) : ℤ)).toNat)⟩) ↔
      (b.1 * hs + pr.1 = x / t + qx ∧ b.2 * hs + pr.2 = y / t + qy)) := by
    intro pr
    have hxiff := tile_cond_iff w t hs bs qx b.1 pr.1 x ht hbs hx
    have hyiff := tile_cond_iff h t hs bs qy b.2 pr.2 y ht hbs hy
    unfold pixelIn
    dsimp only
    constructor
    · rintro ⟨⟨c1, c2, c3, c4⟩, ⟨p1, p2, p3, p4⟩⟩
      exact ⟨hxiff.mp ⟨c1, c2, p1, p2⟩, hyiff.mp ⟨c3, c4, p3, p4⟩⟩
    · rintro ⟨e1, e2⟩
      obtain ⟨c1, c2, p1, p2⟩ := hxiff.mpr e1
      obtain ⟨c3, c4, p3, p4⟩ := hyiff.mpr e2
      exact ⟨⟨c1, c2, c3, c4⟩, ⟨p1, p2, p3, p4⟩⟩
  by_cases hb : b = ((x / t + qx) / hs, (y / t + qy) / hs)
  · rw [if_pos hb]
    have hcong : ∀ idx ∈ List.range (hs * hs),
        (Option.map (fun tile => decide (pixelIn x y tile))
          ((fun hilbert_index =>
            let hilbert_pos := hilbert_index_to_position hs hilbert_index
            let tile := spiralRotate hs dir pd hilbert_pos
            let tile_pos : ℤ × ℤ :=
              (((b.1 * bs + tile.1 * t : ℕ) : ℤ) + -((qx * t : ℕ) : ℤ),
                ((b.2 * bs + tile.2 * t : ℕ) : ℤ) + -((qy * t : ℕ) : ℤ))
            if 0 ≤ tile_pos.1 ∧ tile_pos.1 < (w : ℤ) ∧ 0 ≤ tile_pos.2 ∧
                tile_pos.2 < (h : ℤ) then
              some ⟨tile_pos.1.toNat,
                tile_pos.1.toNat + min t (w - tile_pos.1.toNat),
                tile_pos.2.toNat,
                tile_pos.2.toNat + min t (h - tile_pos.2.toNat)⟩
            else
              none) idx)).getD false = true ↔
        (decide (spiralRotate hs dir pd (hilbert_index_to_position hs idx) =
          ((x / t + qx) % hs, (y / t + qy) % hs)) = true) := by
      intro idx hidx
      rw [List.mem_range] at hidx
      obtain ⟨hh1, hh2⟩ := hilbert_pos_lt hs hhs idx hidx
      obtain ⟨hr1, hr2⟩ := spiralRotate_lt hs dir pd _ hs1 hh1 hh2
      have hk := key (spiralRotate hs dir pd (hilbert_index_to_position hs idx))
      dsimp only
      by_cases hC : 0 ≤ ((b.1 * bs + (spiralRotate hs dir pd
            (hilbert_index_to_position hs idx)).1 * t : ℕ) : ℤ) + -((qx * t : ℕ) : ℤ) ∧
          ((b.1 * bs + (spiralRotate hs dir pd
            (hilbert_index_to_position hs idx)).1 * t : ℕ) : ℤ) + -((qx * t : ℕ) : ℤ) < (w : ℤ) ∧
          0 ≤ ((b.2 * bs + (spiralRotate hs dir pd
            (hilbert_index_to_position hs idx)).2 * t : ℕ) : ℤ) + -((qy * t : ℕ) : ℤ) ∧
          ((b.2 * bs + (spiralRotate hs dir pd
            (hilbert_index_to_position hs idx)).2 * t : ℕ) : ℤ) + -((qy * t : ℕ) : ℤ) < (h : ℤ)
      · rw [if_pos hC]
        simp only [Option.map_some', Option.getD_some, decide_eq_true_eq]
        constructor
        · intro hpix
          obtain ⟨e1, e2⟩ := hk.mp ⟨hC, hpix⟩
          have hu1 := euclid_unique b.1 _ hs _ hr1 e1
          have hu2 := euclid_unique b.2 _ hs _ hr2 e2
          exact Prod.ext hu1.2 hu2.2
        · intro hpr
          have he1 : b.1 * hs + (spiralRotate hs dir pd
              (hilbert_index_to_position hs idx)).1 = x / t + qx := by
            have hb1 : b.1 = (x / t + qx) / hs := by rw [hb]
            have hcm := Nat.div_add_mod (x / t + qx) hs
            have hmc : hs * ((x / t + qx) / hs) = ((x / t + qx) / hs) * hs :=
              Nat.mul_comm _ _
            have hpr1 : (spiralRotate hs dir pd
                (hilbert_index_to_position hs idx)).1 = (x / t + qx) % hs := by
              rw [hpr]
            rw [hb1, hpr1]
            omega
          have he2 : b.2 * hs + (spiralRotate hs dir pd
              (hilbert_index_to_position hs idx)).2 = y / t + qy := by
            have hb2 : b.2 = (y / t + qy) / hs := by rw [hb]
            have hcm := Nat.div_add_mod (y / t + qy) hs
            have hmc : hs * ((y / t + qy) / hs) = ((y / t + qy) / hs) * hs :=
              Nat.mul_comm _ _
            have hpr2 : (spiralRotate hs dir pd
                (hilbert_index_to_position hs idx)).2 = (y / t + qy) % hs := by
              rw [hpr]
            rw [hb2, hpr2]
            omega
          exact (hk.mpr ⟨he1, he2⟩).2
      · rw [if_neg hC]
        simp only [Option.map_none', Option.getD_none, Bool.false_eq_true,
          false_iff, decide_eq_true_eq]
        intro hpr
        have he1 : b.1 * hs + (spiralRotate hs dir pd
            (hilbert_index_to_position hs idx)).1 = x / t + qx := by
          have hb1 : b.1 = (x / t + qx) / hs := by rw [hb]
          have hcm := Nat.div_add_mod (x / t + qx) hs
          have hmc : hs * ((x / t + qx) / hs) = ((x / t + qx) / hs) * hs :=
            Nat.mul_comm _ _
          have hpr1 : (spiralRotate hs dir pd
              (hilbert_index_to_position hs idx)).1 = (x / t + qx) % hs := by
            rw [hpr]
          rw [hb1, hpr1]
          omega
        have he2 : b.2 * hs + (spiralRotate hs dir pd
            (hilbert_index_to_position hs idx)).2 = y / t + qy := by
          have hb2 : b.2 = (y / t + qy) / hs := by rw [hb]
          have hcm := Nat.div_add_mod (y / t + qy) hs
          have hmc : hs * ((y / t + qy) / hs) = ((y / t + qy) / hs) * hs :=
            Nat.mul_comm _ _
          have hpr2 : (spiralRotate hs dir pd
              (hilbert_index_to_position hs idx)).2 = (y / t + qy) % hs := by
            rw [hpr]
          rw [hb2, hpr2]
          omega
        exact hC (hk.mpr ⟨he1, he2⟩).1
    rw [List.countP_congr hcong]
    exact rot_hilbert_cnt hs hhs dir pd _ (Nat.mod_lt _ (by omega))
      (Nat.mod_lt _ (by omega))
  · rw [if_neg hb]
    rw [List.countP_eq_zero]
    intro idx hidx
    rw [List.mem_range] at hidx
    obtain ⟨hh1, hh2⟩ := hilbert_pos_lt hs hhs idx hidx
    obtain ⟨hr1, hr2⟩ := spiralRotate_lt hs dir pd _ hs1 hh1 hh2
    have hk := key (spiralRotate hs dir pd (hilbert_index_to_position hs idx))
    dsimp only
    by_cases hC : 0 ≤ ((b.1 * bs + (spiralRotate hs dir pd
          (hilbert_index_to_position hs idx)).1 * t : ℕ) : ℤ) + -((qx * t : ℕ) : ℤ) ∧
        ((b.1 * bs + (spiralRotate hs dir pd
          (hilbert_index_to_position hs idx)).1 * t : ℕ) : ℤ) + -((qx * t : ℕ) : ℤ) < (w : ℤ) ∧
        0 ≤ ((b.2 * bs + (spiralRotate hs dir pd
          (hilbert_index_to_position hs idx)).2 * t : ℕ) : ℤ) + -((qy * t : ℕ) : ℤ) ∧
        ((b.2 * bs + (spiralRotate hs dir pd
          (hilbert_index_to_position hs idx)).2 * t : ℕ) : ℤ) + -((qy * t : ℕ) : ℤ) < (h : ℤ)
    · rw [if_pos hC]
      simp only [Option.map_some', Option.getD_some, decide_eq_true_eq]
      intro hpix
      obtain ⟨e1, e2⟩ := hk.mp ⟨hC, hpix⟩
      have hu1 := euclid_unique b.1 _ hs _ hr1 e1
      have hu2 := euclid_unique b.2 _ hs _ hr2 e2
      exact hb (Prod.ext hu1.1 hu2.1)
    · rw [if_neg hC]
      simp only [Option.map_none', Option.getD_none, Bool.false_eq_true,
        not_false_eq_true]

lemma target_lt (w t hs bs n qx x : ℕ) (ht : 1 ≤ t) (hbs : bs = t * hs)
    (hx : x < w) (hw : w ≤ n * bs) (hq : t * qx ≤ n * bs - w) :
    x / t + qx < n * hs := by
  have h1 : t * (x / t) ≤ x := Nat.mul_div_le x t
  have h2 : t * (x / t) + t * qx < n * bs := by omega
  have h3 : t * (x / t + qx) = t * (x / t) + t * qx := by ring
  have h4 : n * bs = t * (n * hs) := by
    rw [hbs]
    ring
  have h5 : t * (x / t + qx) < t * (n * hs) := by omega
  exact lt_of_mul_lt_mul_left h5 (Nat.zero_le t)

lemma offset_eval (w nbs t : ℕ) (hw : w ≤ nbs) :
    Int.tdiv (Int.tdiv ((w : ℤ) - ((nbs : ℕ) : ℤ)) 2) (t : ℤ) * (t : ℤ) =
      -(((nbs - w) / 2 / t * t : ℕ) : ℤ) := by
  have h1 : (w : ℤ) - ((nbs : ℕ) : ℤ) = -(((nbs - w : ℕ) : ℤ)) := by
    rw [Int.ofNat_sub hw]
    ring
  have h2 : Int.tdiv (-(((nbs - w : ℕ) : ℤ))) 2 =
      -((((nbs - w) / 2 : ℕ)) : ℤ) := by
    have h := tdiv_neg_coe (nbs - w) 2
    exact_mod_cast h
  rw [h1, h2, tdiv_neg_coe]
  push_cast
  ring

lemma tiles_partition_core (w h t hs bs n c qx qy x y : ℕ)
    (ht : 1 ≤ t) (hhs : hs = 8 ∨ hs = 4) (hbs : bs = t * hs)
    (hn : n = 2 * c + 1) (hx : x < w) (hy : y < h)
    (hxr : x / t + qx < n * hs) (hyr : y / t + qy < n * hs) :
    ((spiralStates n (n * n) (0, 0) 0 0 0).flatMap fun st =>
        tilesOfBlock w h t hs bs (-((qx * t : ℕ) : ℤ), -((qy * t : ℕ) : ℤ))
          st.1 st.2.1 st.2.2).countP
      (fun tile => decide (pixelIn x y tile)) = 1 := by
  have hs1 : 1 ≤ hs := by rcases hhs with rfl | rfl <;> omega
  rw [countP_flatMap]
  have hsm := sum_map_indicator (spiralStates n (n * n) (0, 0) 0 0 0)
    (fun s => s.1) ((x / t + qx) / hs, (y / t + qy) / hs)
    (fun a =>
      (tilesOfBlock w h t hs bs (-((qx * t : ℕ) : ℤ), -((qy * t : ℕ) : ℤ))
        a.1 a.2.1 a.2.2).countP (fun tile => decide (pixelIn x y tile)))
    (fun a _ => tilesOfBlock_cnt w h t hs bs qx qy a.1 a.2.1 a.2.2 ht hhs hbs
      x y hx hy)
  simp only [] at hsm ⊢
  rw [hsm, spiralStates_map_fst, spiral_cnt_top n c hn]
  have hbx : (x / t + qx) / hs < n := Nat.div_lt_of_lt_mul (by
    have hcomm : n * hs = hs * n := Nat.mul_comm n hs
    omega)
  have hby : (y / t + qy) / hs < n := Nat.div_lt_of_lt_mul (by
    have hcomm : n * hs = hs * n := Nat.mul_comm n hs
    omega)
  rw [if_pos]
  constructor <;> simp only [] <;> omega

lemma tilesOfBlock_bounds (w h t hs bs : ℕ) (off : ℤ × ℤ) (b : ℕ × ℕ)
    (dir pd : ℕ) (ht : 1 ≤ t) :
    ∀ tile ∈ tilesOfBlock w h t hs bs off b dir pd,
      tile.left < tile.right ∧ tile.right ≤ w ∧
        tile.top < tile.bottom ∧ tile.bottom ≤ h := by
  intro tile htile
  simp only [tilesOfBlock, List.mem_filterMap] at htile
  obtain ⟨idx, _, heq⟩ := htile
  split_ifs at heq with hC
  · obtain ⟨hC1, hC2, hC3, hC4⟩ := hC
    injection heq with heq
    subst heq
    refine ⟨?_, ?_, ?_, ?_⟩ <;> dsimp only <;> omega

lemma hilbert_tiles_bounds (w h t : ℕ) (ht : 1 ≤ t) :
    ∀ tile ∈ hilbert_tiles w h t,
      tile.left < tile.right ∧ tile.right ≤ w ∧
        tile.top < tile.bottom ∧ tile.bottom ≤ h := by
  intro tile htile
  simp only [hilbert_tiles, List.mem_flatMap] at htile
  obtain ⟨st, _, hmem⟩ := htile
  exact tilesOfBlock_bounds w h t _ _ _ st.1 st.2.1 st.2.2 ht tile hmem

lemma hilbert_tiles_partition (w h t x y : ℕ) (ht : 1 ≤ t)
    (hx : x < w) (hy : y < h) :
    (hilbert_tiles w h t).countP (fun tile => decide (pixelIn x y tile)) = 1 := by
  simp only [hilbert_tiles]
  have hhs0 : (if t ≤ 12 then (8 : ℕ) else 4) = 8 ∨
      (if t ≤ 12 then (8 : ℕ) else 4) = 4 := by
    split_ifs <;> simp
  set hs := if t ≤ 12 then (8 : ℕ) else 4 with hsdef
  have hs1 : 1 ≤ hs := by rcases hhs0 with h8 | h4 <;> omega
  set bs := t * hs with bsdef
  have hbs1 : 1 ≤ bs := by
    have hmm := Nat.mul_le_mul ht hs1
    omega
  set M := max (if w ≤ bs then 1 else divide_up w bs)
    (if h ≤ bs then 1 else divide_up h bs) with Mdef
  set n := M ||| 1 with ndef
  have hn : n = 2 * (M / 2) + 1 := lor_one_eq M
  have hMn : M ≤ n := by omega
  have hwM : w ≤ (if w ≤ bs then 1 else divide_up w bs) * bs :=
    blockCnt_mul_ge w bs hbs1
  have hhM : h ≤ (if h ≤ bs then 1 else divide_up h bs) * bs :=
    blockCnt_mul_ge h bs hbs1
  have hwMl : (if w ≤ bs then 1 else divide_up w bs) ≤ M := by
    rw [Mdef]
    exact le_max_left _ _
  have hhMl : (if h ≤ bs then 1 else divide_up h bs) ≤ M := by
    rw [Mdef]
    exact le_max_right _ _
  have hwn : w ≤ n * bs :=
    le_trans hwM (Nat.mul_le_mul_right bs (le_trans hwMl hMn))
  have hhn : h ≤ n * bs :=
    le_trans hhM (Nat.mul_le_mul_right bs (le_trans hhMl hMn))
  rw [offset_eval w (n * bs) t hwn, offset_eval h (n * bs) t hhn]
  have hqx : t * ((n * bs - w) / 2 / t) ≤ n * bs - w :=
    le_trans (Nat.mul_div_le _ t) (Nat.div_le_self _ 2)
  have hqy : t * ((n * bs - h) / 2 / t) ≤ n * bs - h :=
    le_trans (Nat.mul_div_le _ t) (Nat.div_le_self _ 2)
  exact tiles_partition_core w h t hs bs n (M / 2) ((n * bs - w) / 2 / t)
    ((n * bs - h) / 2 / t) x y ht hhs0 bsdef hn hx hy
    (target_lt w t hs bs n _ x ht bsdef hx hwn hqx)
    (target_lt h t hs bs n _ y ht bsdef hy hhn hqy)

/-! ### Progress total (C8): the pixel areas of the tiles sum to width·height -/

lemma range_interval_count (n a b : ℕ) (hb : b ≤ n) :
    (∑ y ∈ Finset.range n, if a ≤ y ∧ y < b then (1 : ℕ) else 0) = b - a := by
  rw [← Finset.card_filter]
  have h : (Finset.range n).filter (fun y => a ≤ y ∧ y < b) = Finset.Ico a b := by
    ext z
    simp only [Finset.mem_filter, Finset.mem_range, Finset.mem_Ico]
    omega
  rw [h, Nat.card_Ico]

lemma pixelIn_ite_split (x y : ℕ) (tile : Tile) :
    (if pixelIn x y tile then (1 : ℕ) else 0) =
      (if tile.left ≤ x ∧ x < tile.right then (1 : ℕ) else 0) *
        (if tile.top ≤ y ∧ y < tile.bottom then (1 : ℕ) else 0) := by
  unfold pixelIn
  rcases Decidable.em (tile.left ≤ x) with h1 | h1 <;>
    rcases Decidable.em (x < tile.right) with h2 | h2 <;>
    rcases Decidable.em (tile.top ≤ y) with h3 | h3 <;>
    rcases Decidable.em (y < tile.bottom) with h4 | h4 <;>
    simp [h1, h2, h3, h4]

lemma tile_pix_count (w h : ℕ) (tile : Tile) (hrw : tile.right ≤ w)
    (hbh : tile.bottom ≤ h) :
    (∑ x ∈ Finset.range w, ∑ y ∈ Finset.range h,
      if pixelIn x y tile then (1 : ℕ) else 0) = tileArea tile := by
  have h1 : ∀ x, (∑ y ∈ Finset.range h, if pixelIn x y tile then (1 : ℕ) else 0) =
      (if tile.left ≤ x ∧ x < tile.right then (1 : ℕ) else 0) *
        (tile.bottom - tile.top) := by
    intro x
    rw [← range_interval_count h tile.top tile.bottom hbh, Finset.mul_sum]
    exact Finset.sum_congr rfl fun y _ => pixelIn_ite_split x y tile
  calc (∑ x ∈ Finset.range w, ∑ y ∈ Finset.range h,
        if pixelIn x y tile then (1 : ℕ) else 0)
      = ∑ x ∈ Finset.range w,
          (if tile.left ≤ x ∧ x < tile.right then (1 : ℕ) else 0) *
            (tile.bottom - tile.top) :=
        Finset.sum_congr rfl fun x _ => h1 x
    _ = (∑ x ∈ Finset.range w,
          if tile.left ≤ x ∧ x < tile.right then (1 : ℕ) else 0) *
            (tile.bottom - tile.top) := (Finset.sum_mul ..).symm
    _ = (tile.right - tile.left) * (tile.bottom - tile.top) := by
        rw [range_interval_count w tile.left tile.right hrw]
    _ = tileArea tile := rfl

lemma countP_double_sum (L : List Tile) (w h : ℕ) :
    (∑ x ∈ Finset.range w, ∑ y ∈ Finset.range h,
      L.countP (fun tile => decide (pixelIn x y tile))) =
    (L.map (fun tile => ∑ x ∈ Finset.range w, ∑ y ∈ Finset.range h,
      if pixelIn x y tile then (1 : ℕ) else 0)).sum := by
  induction L with
  | nil => simp
  | cons a tl ih =>
    simp only [List.map_cons, List.sum_cons, List.countP_cons]
    rw [← ih, ← Finset.sum_add_distrib]
    refine Finset.sum_congr rfl fun x _ => ?_
    rw [← Finset.sum_add_distrib]
    refine Finset.sum_congr rfl fun y _ => ?_
    by_cases hp : pixelIn x y a <;> simp [hp] <;> omega

lemma totalPixels_eq (w h t : ℕ) (ht : 1 ≤ t) : totalPixels w h t = w * h := by
  unfold totalPixels
  have hmap : (hilbert_tiles w h t).map tileArea =
      (hilbert_tiles w h t).map (fun tile => ∑ x ∈ Finset.range w,
        ∑ y ∈ Finset.range h, if pixelIn x y tile then (1 : ℕ) else 0) := by
    refine List.map_congr_left fun tile htile => ?_
    obtain ⟨_, hrw, _, hbh⟩ := hilbert_tiles_bounds w h t ht tile htile
    exact (tile_pix_count w h tile hrw hbh).symm
  rw [hmap, ← countP_double_sum]
  have hinner : ∀ x ∈ Finset.range w, (∑ y ∈ Finset.range h,
      (hilbert_tiles w h t).countP (fun tile => decide (pixelIn x y tile))) = h := by
    intro x hx
    rw [Finset.sum_congr rfl (fun y hy => hilbert_tiles_partition w h t x y ht
      (Finset.mem_range.mp hx) (Finset.mem_range.mp hy))]
    rw [Finset.sum_const, Finset.card_range, smul_eq_mul, mul_one]
  rw [Finset.sum_congr rfl hinner]
  rw [Finset.sum_const, Finset.card_range, smul_eq_mul]

/-- C1: for every `tile_size ≥ 1`, every pixel `(x, y)` of the
`width × height` image lies in exactly one tile of
`hilbert_tiles width height tile_size` (counted by `countP`), and every
returned tile satisfies `left < right ≤ width` and `top < bottom ≤ height`:
no overlaps, no gaps, no out-of-bounds tiles. -/
theorem C1_tiling_partition (w h t x y : ℕ) (ht : 1 ≤ t)
    (hx : x < w) (hy : y < h) :
    (hilbert_tiles w h t).countP (fun tile => decide (pixelIn x y tile)) = 1 ∧
    ∀ tile ∈ hilbert_tiles w h t,
      tile.left < tile.right ∧ tile.right ≤ w ∧
        tile.top < tile.bottom ∧ tile.bottom ≤ h :=
  ⟨hilbert_tiles_partition w h t x y ht hx hy, hilbert_tiles_bounds w h t ht⟩

/-- Witness for C1 at the concrete instance `width = height = 5`,
`tile_size = 2`, pixel `(3, 4)`. -/
theorem C1_witness :
    (hilbert_tiles 5 5 2).countP (fun tile => decide (pixelIn 3 4 tile)) = 1 ∧
    ∀ tile ∈ hilbert_tiles 5 5 2,
      tile.left < tile.right ∧ tile.right ≤ 5 ∧
        tile.top < tile.bottom ∧ tile.bottom ≤ 5 :=
  C1_tiling_partition 5 5 2 3 4 (by norm_num) (by norm_num) (by norm_num)

/-- C8 (code bug): one completed render does account for exactly
`width · height` pixels, but `Raytracer::start` never resets the `progress`
counter (only `Raytracer::new` zeroes it), so after two completed render
invocations on a 1×1 output the counter holds 2, which exceeds
`width · height = 1` — `progress()` then returns 2.0, outside `[0, 1]`. -/
theorem C8_progress_counter_not_reset :
    (∀ w h t, 1 ≤ t → totalPixels w h t = w * h) ∧
    progressCounterAfter 1 1 1 2 = 2 ∧ 1 * 1 < 2 := by
  refine ⟨fun w h t ht => totalPixels_eq w h t ht, ?_, by norm_num⟩
  unfold progressCounterAfter
  rw [totalPixels_eq 1 1 1 (le_refl 1)]

/-- Witness for C8 at the concrete instance `width = 3`, `height = 2`,
`tile_size = 2`. -/
theorem C8_witness : totalPixels 3 2 2 = 3 * 2 :=
  C8_progress_counter_not_reset.1 3 2 2 (by norm_num)

end Crusty

